import Mathlib

/-!
Shallow embedding of the FaceTracker-AI repository (src/tracker.py,
src/main.py, src/database.py) and proofs about the claims of its
specification.

Modelling conventions:
* Python `dict`s (insertion-ordered) are association lists `List (κ × α)`.
* Pixel coordinates are `Nat`; the centroid `int((x1+x2)/2)` is Nat division
  (coordinates are non-negative pixel values, where `int` truncation and
  floor agree).
* Euclidean distances are represented by their squares in `Nat`: `sqrt` is
  strictly monotone on non-negative reals, so every comparison the source
  makes (`argmin`, `argsort`, the `> 50` gate) is preserved verbatim with
  the gate becoming `> 2500`.
* External collaborators (YOLO detector, InsightFace recognizer, MongoDB)
  are per-frame oracles supplied to `process_frame`.
* The tracker state carries a ghost field `assigned` (the chronological log
  of ids returned by `register`) and the system state a ghost field
  `events` (the chronological log of `database.log_event` calls together
  with the Bool each call reported).  Ghost fields record observations and
  never influence control flow.
-/

namespace Dict

def lookup {κ α : Type} [DecidableEq κ] (d : List (κ × α)) (k : κ) : Option α :=
match d with
| [] => none
| (k', v) :: rest => if k' = k then some v else lookup rest k

/-- Python `d[k] = v`: replace in place when the key is present, append
otherwise. -/
def set {κ α : Type} [DecidableEq κ] (d : List (κ × α)) (k : κ) (v : α) : List (κ × α) :=
match d with
| [] => [(k, v)]
| (k', v') :: rest => if k' = k then (k', v) :: rest else (k', v') :: set rest k v

/-- Python `del d[k]` (first occurrence; keys are unique by invariant). -/
def erase {κ α : Type} [DecidableEq κ] (d : List (κ × α)) (k : κ) : List (κ × α) :=
match d with
| [] => []
| (k', v') :: rest => if k' = k then rest else (k', v') :: erase rest k

def keys {κ α : Type} (d : List (κ × α)) : List κ :=
d.map Prod.fst

end Dict

/-- A face detection as produced by `FaceDetector.detect_faces`: a bounding
box `(x1, y1, x2, y2)`.  The confidence score is consumed inside the
detector and never reaches the tracker, so it is omitted. -/
structure Detection where
  bbox : Nat × Nat × Nat × Nat
deriving DecidableEq

/-- `cx = int((x1+x2)/2)`, `cy = int((y1+y2)/2)` from `FaceTracker.update`. -/
def bboxCenter (b : Nat × Nat × Nat × Nat) : Nat × Nat :=
((b.1 + b.2.2.1) / 2, (b.2.1 + b.2.2.2) / 2)

/-- Squared Euclidean distance between two centroids (models
`scipy.spatial.distance.cdist`, order-faithfully; see file header). -/
def sqdist (p q : Nat × Nat) : Nat :=
(max p.1 q.1 - min p.1 q.1) ^ 2 + (max p.2 q.2 - min p.2 q.2) ^ 2

/-- One entry of `FaceTracker.objects`: the per-track record
`{'centroid': …, 'bbox': …, 'face_id': …}`. -/
structure Track where
  centroid : Nat × Nat
  bbox : Nat × Nat × Nat × Nat
  face_id : Option String
deriving DecidableEq

/-- The mutable state of a `FaceTracker` instance.  `assigned` is a ghost
log of the ids handed out by `register` (its return values), used only to
state id-freshness; it never influences behavior. -/
structure TrackerState where
  next_object_id : Nat
  objects : List (Nat × Track)
  disappeared : List (Nat × Nat)
  max_disappeared : Nat
  face_id_map : List (Nat × String)
  assigned : List Nat
deriving DecidableEq

namespace FaceTracker

/-- `FaceTracker.__init__`. -/
def init (maxDis : Nat) : TrackerState :=
{ next_object_id := 0, objects := [], disappeared := [],
  max_disappeared := maxDis, face_id_map := [], assigned := [] }

/-- `FaceTracker.register`. -/
def register (s : TrackerState) (centroid : Nat × Nat) (bbox : Nat × Nat × Nat × Nat) :
    TrackerState :=
{ s with
  objects := Dict.set s.objects s.next_object_id ⟨centroid, bbox, none⟩,
  disappeared := Dict.set s.disappeared s.next_object_id 0,
  next_object_id := s.next_object_id + 1,
  assigned := s.assigned ++ [s.next_object_id] }

/-- `FaceTracker.deregister`.  The guarded `del` on `face_id_map` is an
erase that is a no-op when the key is absent. -/
def deregister (s : TrackerState) (object_id : Nat) : TrackerState :=
{ s with
  objects := Dict.erase s.objects object_id,
  disappeared := Dict.erase s.disappeared object_id,
  face_id_map := Dict.erase s.face_id_map object_id }

/-- `FaceTracker.assign_face_id`.  The source first writes
`face_id_map[object_id]` and only then indexes `objects[object_id]`; on a
missing id the second line raises `KeyError` with the map already mutated.
The Bool is `true` on success and `false` when the `KeyError` is raised;
the state component is the state as left behind in either case. -/
def assign_face_id (s : TrackerState) (object_id : Nat) (face_id : String) :
    TrackerState × Bool :=
let s₁ := { s with face_id_map := Dict.set s.face_id_map object_id face_id }
match Dict.lookup s₁.objects object_id with
| some t =>
    ({ s₁ with objects := Dict.set s₁.objects object_id { t with face_id := some face_id } },
     true)
| none => (s₁, false)

/-- `FaceTracker.get_face_id`. -/
def get_face_id (s : TrackerState) (object_id : Nat) : Option String :=
Dict.lookup s.face_id_map object_id

/-- First index in `[0, n)` attaining the minimum of `f`, accumulator form
(`numpy.argmin` over a row; strict `<` keeps the earliest minimum). -/
def argminAux (f : Nat → Nat) : List Nat → Nat → Nat
| [], best => best
| j :: js, best => argminAux f js (if f j < f best then j else best)

/-- `numpy.argmin` of `f` over `[0, n)` (first index attaining the minimum;
junk value `0` when `n = 0`, never used in range). -/
def argminIdx (f : Nat → Nat) (n : Nat) : Nat :=
argminAux f (List.range n) 0

/-- One step of the source's greedy per-row match loop
(`for (row, col) in zip(rows, cols)`), bookkeeping only: the accumulator is
`(used_rows, used_cols, matched pairs)`; the gate `D[row, col] > 50` is
`> 2500` on squared distances. -/
def greedyAcceptStep (D : Nat → Nat → Nat) (amin : Nat → Nat)
    (acc : List Nat × List Nat × List (Nat × Nat)) (r : Nat) :
    List Nat × List Nat × List (Nat × Nat) :=
let (usedR, usedC, ms) := acc
let c := amin r
if r ∈ usedR ∨ c ∈ usedC then acc
else if 2500 < D r c then acc
else (usedR ++ [r], usedC ++ [c], ms ++ [(r, c)])

/-- Python dict value mutation `objects[oid]['centroid'] = …;
objects[oid]['bbox'] = …`: update the entry of `oid` in place. -/
def setTrackPos (objs : List (Nat × Track)) (oid : Nat) (c : Nat × Nat)
    (b : Nat × Nat × Nat × Nat) : List (Nat × Track) :=
objs.map fun p => if p.1 = oid then (p.1, { p.2 with centroid := c, bbox := b }) else p

/-- The rows of `update`'s match loop sorted the way the source sorts them:
`rows = D.min(axis=1).argsort()` — row indices of `[0, R)` in ascending
order of the row's minimum distance. -/
def sortedRowsBy (rowmin : Nat → Nat) (R : Nat) : List Nat :=
List.insertionSort (fun a b => rowmin a ≤ rowmin b) (List.range R)

/-- One iteration of the source's match loop including its state updates:
a matched track gets the detection's centroid and bbox and counter 0. -/
def matchStep (ids : List Nat) (cents : List (Nat × Nat))
    (bboxes : List (Nat × Nat × Nat × Nat)) (D : Nat → Nat → Nat) (amin : Nat → Nat)
    (acc : TrackerState × List Nat × List Nat × List (Nat × Nat)) (r : Nat) :
    TrackerState × List Nat × List Nat × List (Nat × Nat) :=
let st := acc.1
let usedR := acc.2.1
let usedC := acc.2.2.1
let c := amin r
if r ∈ usedR ∨ c ∈ usedC then acc
else if 2500 < D r c then acc
else
  let oid := ids.getD r 0
  ({ st with
     objects := setTrackPos st.objects oid (cents.getD c (0, 0)) (bboxes.getD c (0, 0, 0, 0)),
     disappeared := Dict.set st.disappeared oid 0 },
   greedyAcceptStep D amin acc.2 r)

/-- The matched `(row, col)` pairs the source's per-row greedy loop accepts,
as a function of the distance matrix alone. -/
def perRowMatches (D : Nat → Nat → Nat) (R C : Nat) : List (Nat × Nat) :=
let amin := fun r => argminIdx (D r) C
let rowmin := fun r => D r (amin r)
((sortedRowsBy rowmin R).foldl (greedyAcceptStep D amin) ([], [], [])).2.2

/-- The body of both disappearance loops in `update`:
`disappeared[oid] += 1; if disappeared[oid] > max_disappeared: deregister(oid)`.
`disappeared` is a `defaultdict(int)`, hence the `getD 0`. -/
def ageStep (s : TrackerState) (object_id : Nat) : TrackerState :=
let c := (Dict.lookup s.disappeared object_id).getD 0 + 1
let s' := { s with disappeared := Dict.set s.disappeared object_id c }
if s'.max_disappeared < c then deregister s' object_id else s'

/-- `FaceTracker.update`.  Structure mirrors the source:
empty-detections path (age every key of `disappeared`), cold-start path
(register every detection), and the greedy nearest-centroid match path.
The returned mapping of the source (`return self.objects`) is the
`objects` field of the returned state. -/
def update (s : TrackerState) (detections : List Detection) : TrackerState :=
if detections = [] then
  (Dict.keys s.disappeared).foldl ageStep s
else
  let input_centroids := detections.map fun d => bboxCenter d.bbox
  let input_bboxes := detections.map fun d => d.bbox
  if s.objects = [] then
    (input_centroids.zip input_bboxes).foldl (fun st p => register st p.1 p.2) s
  else
    let object_ids := Dict.keys s.objects
    let object_centroids := s.objects.map fun p => p.2.centroid
    let D := fun r c => sqdist (object_centroids.getD r (0, 0)) (input_centroids.getD c (0, 0))
    let numRows := object_centroids.length
    let numCols := input_centroids.length
    let amin := fun r => argminIdx (D r) numCols
    let rowmin := fun r => D r (amin r)
    let res := (sortedRowsBy rowmin numRows).foldl
      (matchStep object_ids input_centroids input_bboxes D amin) (s, [], [], [])
    let usedR := res.2.1
    let usedC := res.2.2.1
    let st₂ := ((List.range numRows).filter fun r => r ∉ usedR).foldl
      (fun st r => ageStep st (object_ids.getD r 0)) res.1
    ((List.range numCols).filter fun c => c ∉ usedC).foldl
      (fun st c => register st (input_centroids.getD c (0, 0)) (input_bboxes.getD c (0, 0, 0, 0)))
      st₂

end FaceTracker

inductive EventKind where
| entry
| exit
deriving DecidableEq

/-- `"FACE_%04d" % n`: zero-pad the decimal representation to width 4. -/
def pad4 (n : Nat) : String :=
let s := toString n
String.mk (List.replicate (4 - s.length) '0') ++ s

def mkFaceId (n : Nat) : String :=
"FACE_" ++ pad4 n

/-- Per-frame environment: the values the external collaborators
(detector, recognizer, database) return this frame.
* `rawDetections`: what `detector.detect_faces(frame)` would return.
* `embedOf`: `recognizer.get_embedding(frame, bbox)` for each bbox.
* `matchOf`: `recognizer.find_match(embedding, known)` (the matched id,
  `none` when below the similarity threshold; the similarity value itself
  is only logged and is omitted).
* `logOk`: the Bool reported by `database.log_event` for each event. -/
structure FrameEnv where
  rawDetections : List Detection
  embedOf : Nat × Nat × Nat × Nat → Option Nat
  matchOf : Nat → List (String × Nat) → Option String
  logOk : String → EventKind → Bool

/-- The mutable state of a `FaceTrackingSystem` instance.  `events` is a
ghost log: one element per `database.log_event` call, recording the face
id, the event type, and the Bool result the call reported (the source
discards that Bool). -/
structure SysState where
  tracker : TrackerState
  frame_count : Nat
  skip_frames : Nat
  tracked_entries : List String
  tracked_exits : List String
  next_face_id : Nat
  known : List (String × Nat)
  events : List (String × EventKind × Bool)

namespace FaceTrackingSystem

/-- `FaceTrackingSystem.__init__` (state fields only; `next_face_id` is
`len(known_embeddings) + 1`). -/
def init (skipFrames maxDis : Nat) (known0 : List (String × Nat)) : SysState :=
{ tracker := FaceTracker.init maxDis, frame_count := 0, skip_frames := skipFrames,
  tracked_entries := [], tracked_exits := [], next_face_id := known0.length + 1,
  known := known0, events := [] }

/-- One iteration of the recognition/entry loop of `process_frame`
(`for obj_id, obj_data in tracked_objects.items(): …`).  `hasDets` is
`len(detections) > 0`.  `database.register_face`'s result is ignored by
the source and the save of the face image has no bearing on state. -/
def recogStep (env : FrameEnv) (hasDets : Bool) (st : SysState) (p : Nat × Track) :
    SysState :=
if p.2.face_id = none ∧ hasDets then
  match env.embedOf p.2.bbox with
  | none => st
  | some emb =>
    let fs : String × SysState :=
      match env.matchOf emb st.known with
      | some matched_id => (matched_id, st)
      | none =>
        let f := mkFaceId st.next_face_id
        (f, { st with next_face_id := st.next_face_id + 1,
                      known := Dict.set st.known f emb })
    let face_id := fs.1
    let st₂ : SysState := { fs.2 with
                 tracker := (FaceTracker.assign_face_id fs.2.tracker p.1 face_id).1 }
    if face_id ∈ st₂.tracked_entries then st₂
    else
      { st₂ with
        events := st₂.events ++ [(face_id, EventKind.entry, env.logOk face_id EventKind.entry)],
        tracked_entries := st₂.tracked_entries ++ [face_id] }
else st

/-- `current_face_ids`: the identities carried by tracked objects, with
Python truthiness (`if obj_data['face_id']:` drops both `None` and `""`). -/
def currentFaceIds (objs : List (Nat × Track)) : List String :=
objs.foldl
  (fun acc p =>
    match p.2.face_id with
    | some f => if f = "" then acc else acc ++ [f]
    | none => acc)
  []

/-- One iteration of the exit loop: scan the present tracked objects for
one still carrying `f` (the source's inner `for … break`); only if found,
log the exit event and mark `f` exited. -/
def exitStep (env : FrameEnv) (st : SysState) (f : String) : SysState :=
match st.tracker.objects.find? (fun p => p.2.face_id = some f) with
| some _ =>
    { st with
      events := st.events ++ [(f, EventKind.exit, env.logOk f EventKind.exit)],
      tracked_exits := st.tracked_exits ++ [f] }
| none => st

/-- `FaceTrackingSystem.process_frame`. -/
def process_frame (env : FrameEnv) (s : SysState) : SysState :=
let s₀ := { s with frame_count := s.frame_count + 1 }
let detections := if s₀.frame_count % (s₀.skip_frames + 1) = 0 then env.rawDetections else []
let s₁ := { s₀ with tracker := FaceTracker.update s₀.tracker detections }
let s₂ := s₁.tracker.objects.foldl (recogStep env (decide (detections ≠ []))) s₁
let current := currentFaceIds s₂.tracker.objects
let exited := s₂.tracked_entries.filter fun f => f ∉ current ∧ f ∉ s₂.tracked_exits
exited.foldl (exitStep env) s₂

/-- `FaceTrackingSystem.run`'s frame loop, as a fold over the per-frame
environments. -/
def runFrames (s : SysState) (envs : List FrameEnv) : SysState :=
envs.foldl (fun st e => process_frame e st) s

end FaceTrackingSystem

/-- All `(row, col)` index pairs of an `R × C` distance matrix, row-major. -/
def candPairs (R C : Nat) : List (Nat × Nat) :=
(List.range R).product (List.range C)

/-- Modelled from the spec: one step of the global greedy matching of the
spec's design note ("greedily accept candidates whose row and column are
both still free"); accumulator `(used rows, used cols, accepted pairs)`. -/
def globalStep (acc : List Nat × List Nat × List (Nat × Nat)) (p : Nat × Nat) :
    List Nat × List Nat × List (Nat × Nat) :=
let (uR, uC, ms) := acc
if p.1 ∈ uR ∨ p.2 ∈ uC then acc
else (uR ++ [p.1], uC ++ [p.2], ms ++ [(p.1, p.2)])

/-- Modelled from the spec: the global greedy matching the spec's design
note describes — "build a full distance matrix, produce a list of
(row,col,distance) candidates sorted by distance ascending, then greedily
accept candidates whose row and column are both still free".  This is the
spec-side definition compared against the source's `perRowMatches`. -/
def globalGreedyMatches (D : Nat → Nat → Nat) (R C : Nat) : List (Nat × Nat) :=
((List.insertionSort (fun p q => D p.1 p.2 ≤ D q.1 q.2) (candPairs R C)).foldl
  globalStep ([], [], [])).2.2

/-- The disappearance counter of a track (`defaultdict(int)` read). -/
def cnt (s : TrackerState) (k : Nat) : Nat :=
(Dict.lookup s.disappeared k).getD 0

/-- The structural invariant the source maintains on a `FaceTracker`:
`objects` and `disappeared` always hold the same keys in the same order,
keys are unique, and every live key is below `next_object_id`. -/
def TrackerInv (s : TrackerState) : Prop :=
Dict.keys s.objects = Dict.keys s.disappeared ∧
(Dict.keys s.objects).Nodup ∧
(∀ k ∈ Dict.keys s.objects, k < s.next_object_id)

instance (s : TrackerState) : Decidable (TrackerInv s) := by
unfold TrackerInv
infer_instance

/-- Ghost-log invariant for id assignment: all assigned ids are below
`next_object_id` and the chronological log is strictly increasing. -/
def IdLog (s : TrackerState) : Prop :=
(∀ a ∈ s.assigned, a < s.next_object_id) ∧ s.assigned.Chain' (· < ·)

/-- The squared-distance matrix `update` builds between the current track
centroids (rows) and the incoming detection centroids (columns). -/
def trackD (s : TrackerState) (dets : List Detection) : Nat → Nat → Nat :=
fun r c =>
  sqdist ((s.objects.map fun p => p.2.centroid).getD r (0, 0))
    ((dets.map fun d => bboxCenter d.bbox).getD c (0, 0))

/-- The `(row, col)` pairs the source's match loop accepts for this state
and detection list. -/
def trackMatches (s : TrackerState) (dets : List Detection) : List (Nat × Nat) :=
FaceTracker.perRowMatches (trackD s dets) s.objects.length dets.length

/-- Iterated empty update (`update(tracker, [])` called `n` times). -/
def emptyUpdates (n : Nat) (s : TrackerState) : TrackerState :=
(fun st => FaceTracker.update st []) ^[n] s

/-- A whole run of the tracker: `update` once per frame. -/
def runUpdates (s : TrackerState) (dss : List (List Detection)) : TrackerState :=
dss.foldl FaceTracker.update s

/-! ### Example inputs used by witnesses and counterexamples -/

/-- A degenerate point detection at `(x, y)` (bbox center `(x, y)`). -/
def ptDet (x y : Nat) : Detection :=
⟨(x, y, x, y)⟩

/-- Distance matrix of the C4 counterexample: tracks at `(0,0)`, `(0,3)`,
detections at `(0,1)`, `(4,0)` (all distances within the 50 px gate, both
rows share argmin column 0). -/
def cexD (r c : Nat) : Nat :=
sqdist ([((0 : Nat), (0 : Nat)), (0, 3)].getD r (0, 0))
  ([((0 : Nat), (1 : Nat)), (4, 0)].getD c (0, 0))

/-- Distance matrix of the C4 witness: tracks and detections both at
`(10·i, 0)`, so each row's argmin is its own index. -/
def wexD (r c : Nat) : Nat :=
sqdist (10 * r, 0) (10 * c, 0)

/-- A detection whose bbox is `(5,5,15,15)` (center `(10,10)`). -/
def exDet : Detection :=
⟨(5, 5, 15, 15)⟩

/-- Frame environment: one detection, embedding available, no recognizer
match, `log_event` reporting `ok`. -/
def envDet (ok : Bool) : FrameEnv :=
⟨[exDet], fun _ => some 1, fun _ _ => none, fun _ _ => ok⟩

/-- Frame environment of an empty frame. -/
def envNone : FrameEnv :=
⟨[], fun _ => none, fun _ _ => none, fun _ _ => true⟩

/-! ### Named pieces of the match path of `update` (for stating lemmas) -/

/-- `input_centroids` of `update`. -/
def detCentroids (dets : List Detection) : List (Nat × Nat) :=
dets.map fun d => bboxCenter d.bbox

/-- `input_bboxes` of `update`. -/
def detBoxes (dets : List Detection) : List (Nat × Nat × Nat × Nat) :=
dets.map fun d => d.bbox

/-- `D.argmin(axis=1)` for this state and detection list. -/
def trackAmin (s : TrackerState) (dets : List Detection) : Nat → Nat :=
fun r => FaceTracker.argminIdx (trackD s dets r) dets.length

/-- `D.min(axis=1)` for this state and detection list. -/
def trackRowmin (s : TrackerState) (dets : List Detection) : Nat → Nat :=
fun r => trackD s dets r (trackAmin s dets r)

/-- The match loop of `update` (state and bookkeeping after the
`for (row, col) in zip(rows, cols)` loop). -/
def matchPhase (s : TrackerState) (dets : List Detection) :
    TrackerState × List Nat × List Nat × List (Nat × Nat) :=
(FaceTracker.sortedRowsBy (trackRowmin s dets) s.objects.length).foldl
  (FaceTracker.matchStep (Dict.keys s.objects) (detCentroids dets) (detBoxes dets)
    (trackD s dets) (trackAmin s dets)) (s, [], [], [])

/-- The unused-row aging loop of `update`. -/
def agePhase (s : TrackerState) (dets : List Detection) : TrackerState :=
((List.range s.objects.length).filter fun r => r ∉ (matchPhase s dets).2.1).foldl
  (fun st r => FaceTracker.ageStep st ((Dict.keys s.objects).getD r 0)) (matchPhase s dets).1

/-- The unused-column registration loop of `update`. -/
def regPhase (s : TrackerState) (dets : List Detection) : TrackerState :=
((List.range dets.length).filter fun c => c ∉ (matchPhase s dets).2.2.1).foldl
  (fun st c => FaceTracker.register st ((detCentroids dets).getD c (0, 0))
    ((detBoxes dets).getD c (0, 0, 0, 0)))
  (agePhase s dets)

/-! ### Association-list lemmas -/

namespace Dict

variable {κ α β : Type} [DecidableEq κ]

theorem keys_cons (p : κ × α) (d : List (κ × α)) : keys (p :: d) = p.1 :: keys d :=
rfl

theorem keys_append {d₁ d₂ : List (κ × α)} : keys (d₁ ++ d₂) = keys d₁ ++ keys d₂ := by
simp [keys]

theorem lookup_eq_none_iff {d : List (κ × α)} {k : κ} :
    lookup d k = none ↔ k ∉ keys d := by
induction d with
| nil => simp [lookup, keys]
| cons p rest ih =>
  obtain ⟨k', v⟩ := p
  rw [keys_cons, List.mem_cons]
  by_cases h : k' = k
  · subst h
    simp [lookup]
  · rw [lookup, if_neg h, ih]
    simp [Ne.symm h]

theorem mem_keys_of_lookup {d : List (κ × α)} {k : κ} {v : α}
    (h : lookup d k = some v) : k ∈ keys d := by
by_contra hk
rw [← lookup_eq_none_iff] at hk
simp [hk] at h

theorem lookup_set_self (d : List (κ × α)) (k : κ) (v : α) :
    lookup (set d k v) k = some v := by
induction d with
| nil => simp [set, lookup]
| cons p rest ih =>
  obtain ⟨k', v'⟩ := p
  by_cases h : k' = k
  · subst h
    simp [set, lookup]
  · rw [set, if_neg h, lookup, if_neg h]
    exact ih

theorem lookup_set_ne (d : List (κ × α)) (k : κ) (v : α) {k' : κ} (h : k' ≠ k) :
    lookup (set d k v) k' = lookup d k' := by
induction d with
| nil => simp [set, lookup, Ne.symm h]
| cons p rest ih =>
  obtain ⟨k₀, v₀⟩ := p
  by_cases h₀ : k₀ = k
  · subst h₀
    rw [set, if_pos rfl, lookup, lookup, if_neg (Ne.symm h), if_neg (Ne.symm h)]
  · rw [set, if_neg h₀, lookup, lookup]
    by_cases h₁ : k₀ = k'
    · simp [h₁]
    · rw [if_neg h₁, if_neg h₁]
      exact ih

theorem keys_set_of_mem {d : List (κ × α)} {k : κ} (h : k ∈ keys d) (v : α) :
    keys (set d k v) = keys d := by
induction d with
| nil => simp [keys] at h
| cons p rest ih =>
  obtain ⟨k', v'⟩ := p
  by_cases h₀ : k' = k
  · subst h₀
    simp [set, keys]
  · rw [keys_cons, List.mem_cons] at h
    have hk : k ∈ keys rest := by
      rcases h with h₁ | h₁
      · exact absurd h₁.symm h₀
      · exact h₁
    rw [set, if_neg h₀, keys_cons, keys_cons, ih hk]

theorem set_eq_append {d : List (κ × α)} {k : κ} (h : k ∉ keys d) (v : α) :
    set d k v = d ++ [(k, v)] := by
induction d with
| nil => simp [set]
| cons p rest ih =>
  obtain ⟨k', v'⟩ := p
  rw [keys_cons, List.mem_cons] at h
  push_neg at h
  rw [set, if_neg (fun hh => h.1 hh.symm), ih h.2]
  simp

theorem keys_erase (d : List (κ × α)) (k : κ) :
    keys (erase d k) = (keys d).erase k := by
induction d with
| nil => simp [erase, keys]
| cons p rest ih =>
  obtain ⟨k', v'⟩ := p
  by_cases h : k' = k
  · subst h
    rw [erase, if_pos rfl, keys_cons, List.erase_cons_head]
  · rw [erase, if_neg h, keys_cons, keys_cons, List.erase_cons_tail, ih]
    simp [h]

theorem lookup_erase_ne (d : List (κ × α)) (k : κ) {k' : κ} (h : k' ≠ k) :
    lookup (erase d k) k' = lookup d k' := by
induction d with
| nil => simp [erase]
| cons p rest ih =>
  obtain ⟨k₀, v₀⟩ := p
  by_cases h₀ : k₀ = k
  · subst h₀
    rw [erase, if_pos rfl, lookup, if_neg (Ne.symm h)]
  · rw [erase, if_neg h₀, lookup, lookup]
    by_cases h₁ : k₀ = k'
    · simp [h₁]
    · rw [if_neg h₁, if_neg h₁]
      exact ih

theorem lookup_erase_self {d : List (κ × α)} {k : κ} (h : (keys d).Nodup) :
    lookup (erase d k) k = none := by
induction d with
| nil => simp [erase, lookup]
| cons p rest ih =>
  obtain ⟨k₀, v₀⟩ := p
  rw [keys_cons, List.nodup_cons] at h
  by_cases h₀ : k₀ = k
  · subst h₀
    rw [erase, if_pos rfl, lookup_eq_none_iff]
    exact h.1
  · rw [erase, if_neg h₀, lookup, if_neg h₀]
    exact ih h.2

theorem nodup_keys_set {d : List (κ × α)} {k : κ} (h : (keys d).Nodup) (v : α) :
    (keys (set d k v)).Nodup := by
by_cases hm : k ∈ keys d
· rw [keys_set_of_mem hm]
  exact h
· rw [set_eq_append hm, keys_append]
  exact List.Nodup.append h (List.nodup_singleton k) (by simpa [keys] using hm)

theorem nodup_keys_erase {d : List (κ × α)} (k : κ) (h : (keys d).Nodup) :
    (keys (erase d k)).Nodup := by
rw [keys_erase]
exact h.erase k

theorem keys_erase_congr {d₁ : List (κ × α)} {d₂ : List (κ × β)}
    (h : keys d₁ = keys d₂) (k : κ) : keys (erase d₁ k) = keys (erase d₂ k) := by
rw [keys_erase, keys_erase, h]

theorem lookup_append_left {d₁ d₂ : List (κ × α)} {k : κ} (h : k ∈ keys d₁) :
    lookup (d₁ ++ d₂) k = lookup d₁ k := by
induction d₁ with
| nil => simp [keys] at h
| cons p rest ih =>
  obtain ⟨k', v⟩ := p
  by_cases h₀ : k' = k
  · subst h₀
    simp [lookup]
  · rw [keys_cons, List.mem_cons] at h
    have hk : k ∈ keys rest := by
      rcases h with h₁ | h₁
      · exact absurd h₁.symm h₀
      · exact h₁
    rw [List.cons_append, lookup, lookup, if_neg h₀, if_neg h₀]
    exact ih hk

theorem lookup_append_right {d₁ d₂ : List (κ × α)} {k : κ} (h : k ∉ keys d₁) :
    lookup (d₁ ++ d₂) k = lookup d₂ k := by
induction d₁ with
| nil => simp
| cons p rest ih =>
  obtain ⟨k', v⟩ := p
  rw [keys_cons, List.mem_cons] at h
  push_neg at h
  rw [List.cons_append, lookup, if_neg (fun hh => h.1 hh.symm)]
  exact ih h.2

end Dict

/-! ### argmin and row-sort lemmas -/

namespace FaceTracker

theorem argminAux_eq_or_mem (f : Nat → Nat) :
    ∀ (l : List Nat) (b : Nat), argminAux f l b = b ∨ argminAux f l b ∈ l := by
intro l
induction l with
| nil => intro b; exact Or.inl rfl
| cons j js ih =>
  intro b
  rw [argminAux]
  rcases ih (if f j < f b then j else b) with h | h
  · rw [h]
    split_ifs with hj
    · exact Or.inr (List.mem_cons_self _ _)
    · exact Or.inl rfl
  · exact Or.inr (List.mem_cons_of_mem _ h)

theorem argminAux_le (f : Nat → Nat) :
    ∀ (l : List Nat) (b : Nat),
      f (argminAux f l b) ≤ f b ∧ ∀ j ∈ l, f (argminAux f l b) ≤ f j := by
intro l
induction l with
| nil => intro b; exact ⟨le_refl _, by simp⟩
| cons j js ih =>
  intro b
  rw [argminAux]
  have hb : f (if f j < f b then j else b) ≤ f b ∧ f (if f j < f b then j else b) ≤ f j := by
    split_ifs with hj
    · exact ⟨le_of_lt hj, le_refl _⟩
    · exact ⟨le_refl _, le_of_not_lt hj⟩
  obtain ⟨ih₁, ih₂⟩ := ih (if f j < f b then j else b)
  refine ⟨le_trans ih₁ hb.1, ?_⟩
  intro j' hj'
  rcases List.mem_cons.1 hj' with h | h
  · subst h
    exact le_trans ih₁ hb.2
  · exact ih₂ j' h

theorem argminIdx_lt (f : Nat → Nat) {n : Nat} (h : 0 < n) : argminIdx f n < n := by
rcases argminAux_eq_or_mem f (List.range n) 0 with h₀ | h₀
· rw [argminIdx, h₀]
  exact h
· rw [argminIdx]
  exact List.mem_range.1 h₀

theorem argminIdx_le (f : Nat → Nat) {n j : Nat} (h : j < n) :
    f (argminIdx f n) ≤ f j :=
(argminAux_le f (List.range n) 0).2 j (List.mem_range.2 h)

theorem sortedRowsBy_perm (rowmin : Nat → Nat) (R : Nat) :
    List.Perm (sortedRowsBy rowmin R) (List.range R) :=
List.perm_insertionSort _ _

theorem mem_sortedRowsBy {rowmin : Nat → Nat} {R r : Nat} :
    r ∈ sortedRowsBy rowmin R ↔ r < R := by
rw [(sortedRowsBy_perm rowmin R).mem_iff, List.mem_range]

theorem sortedRowsBy_nodup (rowmin : Nat → Nat) (R : Nat) :
    (sortedRowsBy rowmin R).Nodup :=
((sortedRowsBy_perm rowmin R).nodup_iff).2 (List.nodup_range R)

theorem sortedRowsBy_sorted (rowmin : Nat → Nat) (R : Nat) :
    (sortedRowsBy rowmin R).Pairwise (fun a b => rowmin a ≤ rowmin b) := by
haveI : IsTotal Nat (fun a b => rowmin a ≤ rowmin b) := ⟨fun a b => Nat.le_total _ _⟩
haveI : IsTrans Nat (fun a b => rowmin a ≤ rowmin b) := ⟨fun a b c => Nat.le_trans⟩
exact List.sorted_insertionSort _ _

/-! ### The greedy per-row fold, bookkeeping part -/

theorem greedyAcceptStep_eq (D : Nat → Nat → Nat) (amin : Nat → Nat)
    (u : List Nat × List Nat × List (Nat × Nat)) (r : Nat) :
    greedyAcceptStep D amin u r =
      if r ∈ u.1 ∨ amin r ∈ u.2.1 then u
      else if 2500 < D r (amin r) then u
      else (u.1 ++ [r], u.2.1 ++ [amin r], u.2.2 ++ [(r, amin r)]) := by
obtain ⟨a, b, c⟩ := u
rfl

/-- Everything the per-row greedy fold appends: the accepted pairs `Δ` are
appended in processing order, their rows form a sublist of the processed
row list, every accepted pair pairs a processed row with its argmin column
at distance within the gate, and the used-row/used-col lists grow by
exactly the rows/cols of `Δ`. -/
theorem greedyFold_delta (D : Nat → Nat → Nat) (amin : Nat → Nat) :
    ∀ (l : List Nat) (u : List Nat × List Nat × List (Nat × Nat)),
      ∃ Δ : List (Nat × Nat),
        (l.foldl (greedyAcceptStep D amin) u).2.2 = u.2.2 ++ Δ ∧
        (l.foldl (greedyAcceptStep D amin) u).1 = u.1 ++ Δ.map Prod.fst ∧
        (l.foldl (greedyAcceptStep D amin) u).2.1 = u.2.1 ++ Δ.map Prod.snd ∧
        List.Sublist (Δ.map Prod.fst) l ∧
        (∀ p ∈ Δ, p.2 = amin p.1 ∧ D p.1 p.2 ≤ 2500) := by
intro l
induction l with
| nil => intro u; exact ⟨[], by simp⟩
| cons r l' ih =>
  intro u
  rw [List.foldl_cons, greedyAcceptStep_eq]
  split_ifs with h₁ h₂
  · obtain ⟨Δ, hms, hur, huc, hsub, hall⟩ := ih u
    exact ⟨Δ, hms, hur, huc, hsub.cons r, hall⟩
  · obtain ⟨Δ, hms, hur, huc, hsub, hall⟩ := ih u
    exact ⟨Δ, hms, hur, huc, hsub.cons r, hall⟩
  · obtain ⟨Δ, hms, hur, huc, hsub, hall⟩ :=
      ih (u.1 ++ [r], u.2.1 ++ [amin r], u.2.2 ++ [(r, amin r)])
    refine ⟨(r, amin r) :: Δ, ?_, ?_, ?_, ?_, ?_⟩
    · simpa [List.append_assoc] using hms
    · simpa [List.append_assoc] using hur
    · simpa [List.append_assoc] using huc
    · simpa using hsub.cons₂ r
    · intro p hp
      rcases List.mem_cons.1 hp with h | h
      · subst h
        exact ⟨rfl, le_of_not_lt h₂⟩
      · exact hall p h

end FaceTracker

/-! ### The match loop with state updates -/

namespace FaceTracker

theorem getD_inj {l : List Nat} (h : l.Nodup) {i j : Nat}
    (hi : i < l.length) (hj : j < l.length) (he : l.getD i 0 = l.getD j 0) : i = j := by
rw [List.getD_eq_getElem l 0 hi, List.getD_eq_getElem l 0 hj] at he
exact (h.getElem_inj_iff).1 he

theorem getD_mem {l : List Nat} {i : Nat} (hi : i < l.length) : l.getD i 0 ∈ l := by
rw [List.getD_eq_getElem l 0 hi]
exact List.getElem_mem hi

theorem keys_setTrackPos (objs : List (Nat × Track)) (oid : Nat) (c : Nat × Nat)
    (b : Nat × Nat × Nat × Nat) : Dict.keys (setTrackPos objs oid c b) = Dict.keys objs := by
induction objs with
| nil => rfl
| cons p rest ih =>
  rw [setTrackPos] at ih ⊢
  rw [List.map_cons, Dict.keys_cons, Dict.keys_cons, ih]
  by_cases h : p.1 = oid
  · rw [if_pos h]
  · rw [if_neg h]

theorem lookup_setTrackPos_self (objs : List (Nat × Track)) (oid : Nat) (c : Nat × Nat)
    (b : Nat × Nat × Nat × Nat) :
    Dict.lookup (setTrackPos objs oid c b) oid =
      (Dict.lookup objs oid).map fun t => { t with centroid := c, bbox := b } := by
induction objs with
| nil => rfl
| cons p rest ih =>
  obtain ⟨k, t⟩ := p
  rw [setTrackPos, List.map_cons]
  rw [setTrackPos] at ih
  by_cases h : k = oid
  · subst h
    rw [show (if ((k, t).1 : Nat) = k then ((k, t).1, { (k, t).2 with centroid := c, bbox := b })
          else (k, t)) = (k, { t with centroid := c, bbox := b }) from if_pos rfl]
    rw [Dict.lookup, if_pos rfl, Dict.lookup, if_pos rfl]
    rfl
  · rw [show (if ((k, t).1 : Nat) = oid then ((k, t).1, { (k, t).2 with centroid := c, bbox := b })
          else (k, t)) = (k, t) from if_neg h]
    rw [Dict.lookup, if_neg h, Dict.lookup, if_neg h]
    exact ih

theorem lookup_setTrackPos_ne (objs : List (Nat × Track)) (oid : Nat) (c : Nat × Nat)
    (b : Nat × Nat × Nat × Nat) {k : Nat} (h : k ≠ oid) :
    Dict.lookup (setTrackPos objs oid c b) k = Dict.lookup objs k := by
induction objs with
| nil => rfl
| cons p rest ih =>
  obtain ⟨k₀, t⟩ := p
  rw [setTrackPos, List.map_cons]
  rw [setTrackPos] at ih
  by_cases h₀ : k₀ = oid
  · subst h₀
    rw [show (if ((k₀, t).1 : Nat) = k₀ then ((k₀, t).1, { (k₀, t).2 with centroid := c, bbox := b })
          else (k₀, t)) = (k₀, { t with centroid := c, bbox := b }) from if_pos rfl]
    rw [Dict.lookup, Dict.lookup, if_neg (fun hh => h hh.symm), if_neg (fun hh => h hh.symm)]
    exact ih
  · rw [show (if ((k₀, t).1 : Nat) = oid then ((k₀, t).1, { (k₀, t).2 with centroid := c, bbox := b })
          else (k₀, t)) = (k₀, t) from if_neg h₀]
    rw [Dict.lookup, Dict.lookup]
    by_cases h₁ : k₀ = k
    · simp [h₁]
    · rw [if_neg h₁, if_neg h₁]
      exact ih

theorem matchStep_eq (ids : List Nat) (cents : List (Nat × Nat))
    (bboxes : List (Nat × Nat × Nat × Nat)) (D : Nat → Nat → Nat) (amin : Nat → Nat)
    (acc : TrackerState × List Nat × List Nat × List (Nat × Nat)) (r : Nat) :
    matchStep ids cents bboxes D amin acc r =
      if r ∈ acc.2.1 ∨ amin r ∈ acc.2.2.1 then acc
      else if 2500 < D r (amin r) then acc
      else
        ({ acc.1 with
           objects := setTrackPos acc.1.objects (ids.getD r 0) (cents.getD (amin r) (0, 0))
             (bboxes.getD (amin r) (0, 0, 0, 0)),
           disappeared := Dict.set acc.1.disappeared (ids.getD r 0) 0 },
         greedyAcceptStep D amin acc.2 r) :=
rfl

theorem matchStep_snd (ids : List Nat) (cents : List (Nat × Nat))
    (bboxes : List (Nat × Nat × Nat × Nat)) (D : Nat → Nat → Nat) (amin : Nat → Nat)
    (acc : TrackerState × List Nat × List Nat × List (Nat × Nat)) (r : Nat) :
    (matchStep ids cents bboxes D amin acc r).2 = greedyAcceptStep D amin acc.2 r := by
rw [matchStep_eq]
split_ifs with h₁ h₂
· rw [greedyAcceptStep_eq, if_pos h₁]
· rw [greedyAcceptStep_eq, if_neg h₁, if_pos h₂]
· rfl

theorem matchFold_snd (ids : List Nat) (cents : List (Nat × Nat))
    (bboxes : List (Nat × Nat × Nat × Nat)) (D : Nat → Nat → Nat) (amin : Nat → Nat) :
    ∀ (l : List Nat) (acc : TrackerState × List Nat × List Nat × List (Nat × Nat)),
      (l.foldl (matchStep ids cents bboxes D amin) acc).2 =
        l.foldl (greedyAcceptStep D amin) acc.2 := by
intro l
induction l with
| nil => intro acc; rfl
| cons r l' ih =>
  intro acc
  rw [List.foldl_cons, List.foldl_cons, ih, matchStep_snd]

/-- Full characterization of the source's match loop: the fold leaves every
non-dict field alone, never changes the key lists, and its accepted pairs
`Δ` update exactly the matched tracks (new centroid/bbox, counter 0) while
all other entries are untouched. -/
theorem matchFold_state (ids : List Nat) (cents : List (Nat × Nat))
    (bboxes : List (Nat × Nat × Nat × Nat)) (D : Nat → Nat → Nat) (amin : Nat → Nat)
    (hids : ids.Nodup) :
    ∀ (l : List Nat) (st : TrackerState) (u : List Nat × List Nat × List (Nat × Nat)),
      (∀ r ∈ l, r < ids.length) →
      (∀ r, r < ids.length → ids.getD r 0 ∈ Dict.keys st.disappeared) →
      (l.foldl (matchStep ids cents bboxes D amin) (st, u)).1.next_object_id =
          st.next_object_id ∧
      (l.foldl (matchStep ids cents bboxes D amin) (st, u)).1.max_disappeared =
          st.max_disappeared ∧
      (l.foldl (matchStep ids cents bboxes D amin) (st, u)).1.assigned = st.assigned ∧
      (l.foldl (matchStep ids cents bboxes D amin) (st, u)).1.face_id_map = st.face_id_map ∧
      Dict.keys (l.foldl (matchStep ids cents bboxes D amin) (st, u)).1.objects =
          Dict.keys st.objects ∧
      Dict.keys (l.foldl (matchStep ids cents bboxes D amin) (st, u)).1.disappeared =
          Dict.keys st.disappeared ∧
      ∃ Δ : List (Nat × Nat),
        (l.foldl (matchStep ids cents bboxes D amin) (st, u)).2.2.2 = u.2.2 ++ Δ ∧
        (l.foldl (matchStep ids cents bboxes D amin) (st, u)).2.1 = u.1 ++ Δ.map Prod.fst ∧
        (l.foldl (matchStep ids cents bboxes D amin) (st, u)).2.2.1 =
            u.2.1 ++ Δ.map Prod.snd ∧
        List.Sublist (Δ.map Prod.fst) l ∧
        (∀ p ∈ Δ, p.1 ∈ l ∧ p.1 ∉ u.1 ∧ p.2 = amin p.1 ∧ D p.1 p.2 ≤ 2500) ∧
        (∀ k : Nat, (∀ p ∈ Δ, ids.getD p.1 0 ≠ k) →
          Dict.lookup (l.foldl (matchStep ids cents bboxes D amin) (st, u)).1.objects k =
              Dict.lookup st.objects k ∧
          Dict.lookup (l.foldl (matchStep ids cents bboxes D amin) (st, u)).1.disappeared k =
              Dict.lookup st.disappeared k) ∧
        (∀ p ∈ Δ,
          Dict.lookup (l.foldl (matchStep ids cents bboxes D amin) (st, u)).1.objects
              (ids.getD p.1 0) =
            (Dict.lookup st.objects (ids.getD p.1 0)).map
              (fun t => { t with centroid := cents.getD p.2 (0, 0),
                                 bbox := bboxes.getD p.2 (0, 0, 0, 0) }) ∧
          Dict.lookup (l.foldl (matchStep ids cents bboxes D amin) (st, u)).1.disappeared
              (ids.getD p.1 0) = some 0) := by
intro l
induction l with
| nil =>
  intro st u _ _
  exact ⟨rfl, rfl, rfl, rfl, rfl, rfl, [], by simp, by simp, by simp, by simp, by simp,
    fun k _ => ⟨rfl, rfl⟩, by simp⟩
| cons r l' ih =>
  intro st u hbound hkey
  have hr : r < ids.length := hbound r (List.mem_cons_self _ _)
  by_cases h₁ : r ∈ u.1 ∨ amin r ∈ u.2.1
  · rw [List.foldl_cons, matchStep_eq, if_pos h₁]
    obtain ⟨q1, q2, q3, q4, q5, q6, Δ, hms, hur, huc, hsub, hprops, hunt, htch⟩ :=
      ih st u (fun r' hr' => hbound r' (List.mem_cons_of_mem _ hr')) hkey
    exact ⟨q1, q2, q3, q4, q5, q6, Δ, hms, hur, huc, hsub.cons r,
      fun p hp => ⟨List.mem_cons_of_mem _ (hprops p hp).1, (hprops p hp).2⟩, hunt, htch⟩
  · by_cases h₂ : 2500 < D r (amin r)
    · rw [List.foldl_cons, matchStep_eq, if_neg h₁, if_pos h₂]
      obtain ⟨q1, q2, q3, q4, q5, q6, Δ, hms, hur, huc, hsub, hprops, hunt, htch⟩ :=
        ih st u (fun r' hr' => hbound r' (List.mem_cons_of_mem _ hr')) hkey
      exact ⟨q1, q2, q3, q4, q5, q6, Δ, hms, hur, huc, hsub.cons r,
        fun p hp => ⟨List.mem_cons_of_mem _ (hprops p hp).1, (hprops p hp).2⟩, hunt, htch⟩
    · rw [List.foldl_cons, matchStep_eq, if_neg h₁, if_neg h₂, greedyAcceptStep_eq,
        if_neg h₁, if_neg h₂]
      push_neg at h₁
      set oid := ids.getD r 0 with hoid
      set st' : TrackerState :=
        { st with
          objects := setTrackPos st.objects oid (cents.getD (amin r) (0, 0))
            (bboxes.getD (amin r) (0, 0, 0, 0)),
          disappeared := Dict.set st.disappeared oid 0 } with hst'
      have hkeyO : Dict.keys st'.objects = Dict.keys st.objects := keys_setTrackPos _ _ _ _
      have hkeyD : Dict.keys st'.disappeared = Dict.keys st.disappeared :=
        Dict.keys_set_of_mem (hkey r hr) 0
      obtain ⟨q1, q2, q3, q4, q5, q6, Δ', hms, hur, huc, hsub, hprops, hunt, htch⟩ :=
        ih st' (u.1 ++ [r], u.2.1 ++ [amin r], u.2.2 ++ [(r, amin r)])
          (fun r' hr' => hbound r' (List.mem_cons_of_mem _ hr'))
          (fun r' hr' => hkeyD ▸ hkey r' hr')
      have hoid_ne : ∀ p ∈ Δ', ids.getD p.1 0 ≠ oid := by
        intro p hp hne
        have hp1 : p.1 < ids.length := hbound p.1 (List.mem_cons_of_mem _ (hprops p hp).1)
        have : p.1 = r := getD_inj hids hp1 hr hne
        exact (hprops p hp).2.1 (by simp [this])
      refine ⟨q1.trans rfl, q2.trans rfl, q3.trans rfl, q4.trans rfl,
        q5.trans hkeyO, q6.trans hkeyD, (r, amin r) :: Δ', ?_, ?_, ?_, ?_, ?_, ?_, ?_⟩
      · rw [hms, List.append_assoc]
        rfl
      · rw [hur, List.append_assoc]
        rfl
      · rw [huc, List.append_assoc]
        rfl
      · exact (by simpa using hsub.cons₂ r)
      · intro p hp
        rcases List.mem_cons.1 hp with h | h
        · subst h
          exact ⟨List.mem_cons_self _ _, h₁.1, rfl, le_of_not_lt h₂⟩
        · obtain ⟨hm, hnu, ha, hd⟩ := hprops p h
          refine ⟨List.mem_cons_of_mem _ hm, fun hc => hnu ?_, ha, hd⟩
          exact List.mem_append_left _ hc
      · intro k hk
        have hk' : ∀ p ∈ Δ', ids.getD p.1 0 ≠ k := fun p hp =>
          hk p (List.mem_cons_of_mem _ hp)
        have hkr : oid ≠ k := hk (r, amin r) (List.mem_cons_self _ _)
        obtain ⟨ho, hd⟩ := hunt k hk'
        constructor
        · rw [ho]
          exact lookup_setTrackPos_ne _ _ _ _ (fun hh => hkr hh.symm)
        · rw [hd]
          exact Dict.lookup_set_ne _ _ _ (fun hh => hkr hh.symm)
      · intro p hp
        rcases List.mem_cons.1 hp with h | h
        · subst h
          obtain ⟨ho, hd⟩ := hunt oid hoid_ne
          constructor
          · rw [ho]
            exact lookup_setTrackPos_self _ _ _ _
          · rw [hd]
            exact Dict.lookup_set_self _ _ _
        · obtain ⟨ho, hd⟩ := htch p h
          have hne : ids.getD p.1 0 ≠ oid := hoid_ne p h
          constructor
          · rw [ho, lookup_setTrackPos_ne _ _ _ _ hne]
          · exact hd

/-! ### The disappearance/aging loop -/

theorem ageStep_eq (s : TrackerState) (oid : Nat) :
    ageStep s oid =
      if s.max_disappeared < (Dict.lookup s.disappeared oid).getD 0 + 1 then
        deregister
          { s with
            disappeared := Dict.set s.disappeared oid ((Dict.lookup s.disappeared oid).getD 0 + 1) }
          oid
      else
        { s with
          disappeared := Dict.set s.disappeared oid ((Dict.lookup s.disappeared oid).getD 0 + 1) } :=
rfl

theorem ageStep_fields (s : TrackerState) (oid : Nat) :
    (ageStep s oid).next_object_id = s.next_object_id ∧
    (ageStep s oid).max_disappeared = s.max_disappeared ∧
    (ageStep s oid).assigned = s.assigned := by
rw [ageStep_eq]
split_ifs <;> exact ⟨rfl, rfl, rfl⟩

theorem ageStep_lookup_ne (s : TrackerState) (oid : Nat) {k : Nat} (h : k ≠ oid) :
    Dict.lookup (ageStep s oid).objects k = Dict.lookup s.objects k ∧
    Dict.lookup (ageStep s oid).disappeared k = Dict.lookup s.disappeared k := by
rw [ageStep_eq]
split_ifs
· exact ⟨Dict.lookup_erase_ne _ _ h,
    (Dict.lookup_erase_ne _ _ h).trans (Dict.lookup_set_ne _ _ _ h)⟩
· exact ⟨rfl, Dict.lookup_set_ne _ _ _ h⟩

theorem ageStep_lookup_self (s : TrackerState) (oid : Nat)
    (hno : (Dict.keys s.objects).Nodup) (hnd : (Dict.keys s.disappeared).Nodup) :
    (s.max_disappeared < cnt s oid + 1 →
      Dict.lookup (ageStep s oid).objects oid = none ∧
      Dict.lookup (ageStep s oid).disappeared oid = none) ∧
    (¬ s.max_disappeared < cnt s oid + 1 →
      Dict.lookup (ageStep s oid).objects oid = Dict.lookup s.objects oid ∧
      Dict.lookup (ageStep s oid).disappeared oid = some (cnt s oid + 1)) := by
rw [ageStep_eq]
constructor
· intro h
  rw [cnt] at h
  rw [if_pos h]
  exact ⟨Dict.lookup_erase_self hno,
    Dict.lookup_erase_self (Dict.nodup_keys_set hnd _)⟩
· intro h
  rw [cnt] at h
  rw [if_neg h]
  exact ⟨rfl, Dict.lookup_set_self _ _ _⟩

theorem ageStep_keys (s : TrackerState) (oid : Nat) (hmem : oid ∈ Dict.keys s.disappeared) :
    (s.max_disappeared < cnt s oid + 1 →
      Dict.keys (ageStep s oid).objects = (Dict.keys s.objects).erase oid ∧
      Dict.keys (ageStep s oid).disappeared = (Dict.keys s.disappeared).erase oid) ∧
    (¬ s.max_disappeared < cnt s oid + 1 →
      Dict.keys (ageStep s oid).objects = Dict.keys s.objects ∧
      Dict.keys (ageStep s oid).disappeared = Dict.keys s.disappeared) := by
rw [ageStep_eq]
constructor
· intro h
  rw [cnt] at h
  rw [if_pos h]
  constructor
  · show Dict.keys (Dict.erase s.objects oid) = _
    exact Dict.keys_erase _ _
  · show Dict.keys
        (Dict.erase (Dict.set s.disappeared oid ((Dict.lookup s.disappeared oid).getD 0 + 1)) oid) = _
    rw [Dict.keys_erase, Dict.keys_set_of_mem hmem]
· intro h
  rw [cnt] at h
  rw [if_neg h]
  exact ⟨rfl, Dict.keys_set_of_mem hmem _⟩

theorem ageStep_nodup (s : TrackerState) (oid : Nat)
    (hno : (Dict.keys s.objects).Nodup) (hnd : (Dict.keys s.disappeared).Nodup) :
    (Dict.keys (ageStep s oid).objects).Nodup ∧
    (Dict.keys (ageStep s oid).disappeared).Nodup := by
rw [ageStep_eq]
split_ifs
· exact ⟨Dict.nodup_keys_erase _ hno, Dict.nodup_keys_erase _ (Dict.nodup_keys_set hnd _)⟩
· exact ⟨hno, Dict.nodup_keys_set hnd _⟩

/-- Full characterization of the aging loop `for oid in list(disappeared):
age; maybe deregister` over a duplicate-free key snapshot `ks`. -/
theorem ageRun (ks : List Nat) :
    ∀ (s : TrackerState), ks.Nodup → (∀ k ∈ ks, k ∈ Dict.keys s.disappeared) →
    (Dict.keys s.objects).Nodup → (Dict.keys s.disappeared).Nodup →
    (ks.foldl ageStep s).next_object_id = s.next_object_id ∧
    (ks.foldl ageStep s).max_disappeared = s.max_disappeared ∧
    (ks.foldl ageStep s).assigned = s.assigned ∧
    (Dict.keys (ks.foldl ageStep s).objects).Nodup ∧
    (Dict.keys (ks.foldl ageStep s).disappeared).Nodup ∧
    (Dict.keys s.objects = Dict.keys s.disappeared →
      Dict.keys (ks.foldl ageStep s).objects = Dict.keys (ks.foldl ageStep s).disappeared) ∧
    ∀ k : Nat,
      (k ∉ ks →
        Dict.lookup (ks.foldl ageStep s).objects k = Dict.lookup s.objects k ∧
        Dict.lookup (ks.foldl ageStep s).disappeared k = Dict.lookup s.disappeared k) ∧
      (k ∈ ks →
        (s.max_disappeared < cnt s k + 1 →
          Dict.lookup (ks.foldl ageStep s).objects k = none ∧
          Dict.lookup (ks.foldl ageStep s).disappeared k = none) ∧
        (¬ s.max_disappeared < cnt s k + 1 →
          Dict.lookup (ks.foldl ageStep s).objects k = Dict.lookup s.objects k ∧
          Dict.lookup (ks.foldl ageStep s).disappeared k = some (cnt s k + 1))) := by
induction ks with
| nil =>
  intro s _ _ hno hnd
  exact ⟨rfl, rfl, rfl, hno, hnd, fun h => h, fun k => ⟨fun _ => ⟨rfl, rfl⟩, by simp⟩⟩
| cons k₀ ks' ih =>
  intro s hnodup hmem hno hnd
  rw [List.nodup_cons] at hnodup
  have hm₀ : k₀ ∈ Dict.keys s.disappeared := hmem k₀ (List.mem_cons_self _ _)
  have hstep := ageStep_nodup s k₀ hno hnd
  have hmem' : ∀ k ∈ ks', k ∈ Dict.keys (ageStep s k₀).disappeared := by
    intro k hk
    have hne : k ≠ k₀ := fun hh => hnodup.1 (hh ▸ hk)
    have hlk := (ageStep_lookup_ne s k₀ hne).2
    by_contra hc
    rw [← Dict.lookup_eq_none_iff, hlk, Dict.lookup_eq_none_iff] at hc
    exact hc (hmem k (List.mem_cons_of_mem _ hk))
  obtain ⟨q1, q2, q3, q4, q5, q6, hpt⟩ :=
    ih (ageStep s k₀) hnodup.2 hmem' hstep.1 hstep.2
  have hfields := ageStep_fields s k₀
  refine ⟨by rw [List.foldl_cons, q1, hfields.1],
    by rw [List.foldl_cons, q2, hfields.2.1],
    by rw [List.foldl_cons, q3, hfields.2.2], by rw [List.foldl_cons]; exact q4,
    by rw [List.foldl_cons]; exact q5, ?_, ?_⟩
  · intro hkeq
    rw [List.foldl_cons]
    refine q6 ?_
    obtain ⟨hrem, hkeep⟩ := ageStep_keys s k₀ hm₀
    by_cases h : s.max_disappeared < cnt s k₀ + 1
    · obtain ⟨ho, hd⟩ := hrem h
      rw [ho, hd, hkeq]
    · obtain ⟨ho, hd⟩ := hkeep h
      rw [ho, hd, hkeq]
  · intro k
    rw [List.foldl_cons]
    by_cases hk : k = k₀
    · subst hk
      constructor
      · intro hc
        exact absurd (List.mem_cons_self _ _) hc
      · intro _
        have hself := ageStep_lookup_self s k hno hnd
        have huntouched := (hpt k).1 (fun hc => hnodup.1 hc)
        constructor
        · intro h
          obtain ⟨ho, hd⟩ := hself.1 h
          exact ⟨huntouched.1.trans ho, huntouched.2.trans hd⟩
        · intro h
          obtain ⟨ho, hd⟩ := hself.2 h
          exact ⟨huntouched.1.trans ho, huntouched.2.trans hd⟩
    · have hne := ageStep_lookup_ne s k₀ (k := k) hk
      have hmax : (ageStep s k₀).max_disappeared = s.max_disappeared := hfields.2.1
      have hcnt : cnt (ageStep s k₀) k = cnt s k := by
        rw [cnt, cnt, hne.2]
      constructor
      · intro hc
        have hc' : k ∉ ks' := fun hh => hc (List.mem_cons_of_mem _ hh)
        obtain ⟨ho, hd⟩ := (hpt k).1 hc'
        exact ⟨ho.trans hne.1, hd.trans hne.2⟩
      · intro hkin
        have hkin' : k ∈ ks' := by
          rcases List.mem_cons.1 hkin with h | h
          · exact absurd h hk
          · exact h
        obtain ⟨hrem, hkeep⟩ := (hpt k).2 hkin'
        constructor
        · intro h
          exact hrem (by rw [hmax, hcnt]; exact h)
        · intro h
          obtain ⟨ho, hd⟩ := hkeep (by rw [hmax, hcnt]; exact h)
          refine ⟨ho.trans hne.1, ?_⟩
          rw [hd, hcnt]

/-! ### The registration loop -/

theorem registerRun (ps : List ((Nat × Nat) × (Nat × Nat × Nat × Nat))) :
    ∀ (s : TrackerState),
      (∀ k ∈ Dict.keys s.objects, k < s.next_object_id) →
      (∀ k ∈ Dict.keys s.disappeared, k < s.next_object_id) →
      (ps.foldl (fun st p => register st p.1 p.2) s).next_object_id =
          s.next_object_id + ps.length ∧
      (ps.foldl (fun st p => register st p.1 p.2) s).max_disappeared = s.max_disappeared ∧
      (ps.foldl (fun st p => register st p.1 p.2) s).face_id_map = s.face_id_map ∧
      (ps.foldl (fun st p => register st p.1 p.2) s).objects =
          s.objects ++ (List.range ps.length).map
            (fun i => (s.next_object_id + i,
              ⟨(ps.getD i ((0, 0), (0, 0, 0, 0))).1, (ps.getD i ((0, 0), (0, 0, 0, 0))).2,
               none⟩)) ∧
      (ps.foldl (fun st p => register st p.1 p.2) s).disappeared =
          s.disappeared ++ (List.range ps.length).map (fun i => (s.next_object_id + i, 0)) ∧
      (ps.foldl (fun st p => register st p.1 p.2) s).assigned =
          s.assigned ++ (List.range ps.length).map (fun i => s.next_object_id + i) := by
induction ps with
| nil => intro s _ _; simp
| cons p ps' ih =>
  intro s hbo hbd
  have hfresh_o : s.next_object_id ∉ Dict.keys s.objects := fun hc =>
    lt_irrefl _ (hbo _ hc)
  have hfresh_d : s.next_object_id ∉ Dict.keys s.disappeared := fun hc =>
    lt_irrefl _ (hbd _ hc)
  have hobj : (register s p.1 p.2).objects = s.objects ++ [(s.next_object_id, ⟨p.1, p.2, none⟩)] :=
    Dict.set_eq_append hfresh_o _
  have hdis : (register s p.1 p.2).disappeared =
      s.disappeared ++ [(s.next_object_id, 0)] :=
    Dict.set_eq_append hfresh_d _
  have hbo' : ∀ k ∈ Dict.keys (register s p.1 p.2).objects,
      k < (register s p.1 p.2).next_object_id := by
    intro k hk
    rw [hobj, Dict.keys_append] at hk
    rcases List.mem_append.1 hk with h | h
    · exact lt_trans (hbo k h) (Nat.lt_succ_self _)
    · rw [show Dict.keys [(s.next_object_id, (⟨p.1, p.2, none⟩ : Track))] =
          [s.next_object_id] from rfl] at h
      rw [List.mem_singleton.1 h]
      exact Nat.lt_succ_self _
  have hbd' : ∀ k ∈ Dict.keys (register s p.1 p.2).disappeared,
      k < (register s p.1 p.2).next_object_id := by
    intro k hk
    rw [hdis, Dict.keys_append] at hk
    rcases List.mem_append.1 hk with h | h
    · exact lt_trans (hbd k h) (Nat.lt_succ_self _)
    · rw [show Dict.keys [(s.next_object_id, 0)] = [s.next_object_id] from rfl] at h
      rw [List.mem_singleton.1 h]
      exact Nat.lt_succ_self _
  obtain ⟨q1, q2, q3, q4, q5, q6⟩ := ih (register s p.1 p.2) hbo' hbd'
  have hnext : (register s p.1 p.2).next_object_id = s.next_object_id + 1 := rfl
  refine ⟨?_, q2, q3, ?_, ?_, ?_⟩
  · rw [List.foldl_cons, q1, hnext, List.length_cons]
    omega
  · rw [List.foldl_cons, q4, hobj, List.append_assoc, List.length_cons,
      List.range_succ_eq_map, List.map_cons, List.map_map, List.singleton_append]
    congr 1
    refine List.cons_eq_cons.2 ⟨rfl, ?_⟩
    refine (List.map_congr_left ?_)
    intro i _
    rw [Function.comp_apply]
    congr 1
    rw [hnext]
    omega
  · rw [List.foldl_cons, q5, hdis, List.append_assoc, List.length_cons,
      List.range_succ_eq_map, List.map_cons, List.map_map, List.singleton_append]
    congr 1
    refine List.cons_eq_cons.2 ⟨rfl, ?_⟩
    refine (List.map_congr_left ?_)
    intro i _
    rw [Function.comp_apply]
    congr 1
    rw [hnext]
    omega
  · rw [List.foldl_cons, q6,
      show (register s p.1 p.2).assigned = s.assigned ++ [s.next_object_id] from rfl,
      List.append_assoc, List.length_cons, List.range_succ_eq_map, List.map_cons,
      List.map_map, List.singleton_append]
    congr 1
    refine List.cons_eq_cons.2 ⟨rfl, ?_⟩
    refine (List.map_congr_left ?_)
    intro i _
    rw [Function.comp_apply, hnext]
    omega

/-! ### Decomposing `update` on the match path -/

theorem trackMatches_eq (s : TrackerState) (dets : List Detection) :
    trackMatches s dets =
      ((sortedRowsBy (trackRowmin s dets) s.objects.length).foldl
        (greedyAcceptStep (trackD s dets) (trackAmin s dets)) ([], [], [])).2.2 :=
rfl

theorem matchPhase_snd (s : TrackerState) (dets : List Detection) :
    (matchPhase s dets).2 =
      (sortedRowsBy (trackRowmin s dets) s.objects.length).foldl
        (greedyAcceptStep (trackD s dets) (trackAmin s dets)) ([], [], []) :=
matchFold_snd _ _ _ _ _ _ _

theorem update_match_decomp (s : TrackerState) (dets : List Detection)
    (hd : ¬ dets = []) (ho : ¬ s.objects = []) :
    update s dets = regPhase s dets := by
simp only [update, hd, ho, if_false, regPhase, agePhase, matchPhase, detCentroids,
  detBoxes, trackAmin, trackRowmin, trackD, List.length_map]
rfl

theorem exists_index_of_mem {l : List Nat} {k : Nat} (h : k ∈ l) :
    ∃ i, i < l.length ∧ l.getD i 0 = k := by
obtain ⟨i, hi, he⟩ := List.mem_iff_getElem.1 h
exact ⟨i, hi, by rw [List.getD_eq_getElem l 0 hi]; exact he⟩

theorem keys_range_map {α : Type} (base n : Nat) (f : Nat → α) :
    Dict.keys ((List.range n).map fun i => (base + i, f i)) =
      (List.range n).map fun i => base + i := by
rw [Dict.keys, List.map_map]
rfl

theorem lookup_range_map {α : Type} (base n j : Nat) (f : Nat → α) (hj : j < n) :
    Dict.lookup ((List.range n).map fun i => (base + i, f i)) (base + j) = some (f j) := by
induction n with
| zero => exact absurd hj (Nat.not_lt_zero j)
| succ n ih =>
  rw [List.range_succ, List.map_append]
  by_cases h : j < n
  · rw [Dict.lookup_append_left]
    · exact ih h
    · rw [keys_range_map]
      exact List.mem_map.2 ⟨j, List.mem_range.2 h, rfl⟩
  · have hjn : j = n := Nat.le_antisymm (Nat.lt_succ_iff.1 hj) (Nat.le_of_not_lt h)
    subst hjn
    rw [Dict.lookup_append_right]
    · show Dict.lookup [(base + j, f j)] (base + j) = some (f j)
      rw [Dict.lookup, if_pos rfl]
    · rw [keys_range_map]
      intro hc
      obtain ⟨i, hi, he⟩ := List.mem_map.1 hc
      have : i = j := Nat.add_left_cancel he
      rw [this] at hi
      exact lt_irrefl j (List.mem_range.1 hi)

theorem lookup_range_map_lt {α : Type} (base n k : Nat) (f : Nat → α) (hk : k < base) :
    Dict.lookup ((List.range n).map fun i => (base + i, f i)) k = none := by
rw [Dict.lookup_eq_none_iff, keys_range_map]
intro hc
obtain ⟨i, _, he⟩ := List.mem_map.1 hc
omega

/-- The match loop of `update`, specialized to its real arguments: fields
and key lists preserved, bookkeeping lists determined by `trackMatches`,
matched entries updated, everything else untouched. -/
theorem matchPhase_spec (s : TrackerState) (dets : List Detection) (hinv : TrackerInv s) :
    (matchPhase s dets).1.next_object_id = s.next_object_id ∧
    (matchPhase s dets).1.max_disappeared = s.max_disappeared ∧
    (matchPhase s dets).1.assigned = s.assigned ∧
    Dict.keys (matchPhase s dets).1.objects = Dict.keys s.objects ∧
    Dict.keys (matchPhase s dets).1.disappeared = Dict.keys s.disappeared ∧
    (matchPhase s dets).2.1 = (trackMatches s dets).map Prod.fst ∧
    (matchPhase s dets).2.2.1 = (trackMatches s dets).map Prod.snd ∧
    List.Sublist ((trackMatches s dets).map Prod.fst)
      (sortedRowsBy (trackRowmin s dets) s.objects.length) ∧
    (∀ p ∈ trackMatches s dets,
      p.1 < s.objects.length ∧ p.2 = trackAmin s dets p.1 ∧
      trackD s dets p.1 p.2 ≤ 2500) ∧
    (∀ k : Nat, (∀ p ∈ trackMatches s dets, (Dict.keys s.objects).getD p.1 0 ≠ k) →
      Dict.lookup (matchPhase s dets).1.objects k = Dict.lookup s.objects k ∧
      Dict.lookup (matchPhase s dets).1.disappeared k = Dict.lookup s.disappeared k) ∧
    (∀ p ∈ trackMatches s dets,
      Dict.lookup (matchPhase s dets).1.objects ((Dict.keys s.objects).getD p.1 0) =
        (Dict.lookup s.objects ((Dict.keys s.objects).getD p.1 0)).map
          (fun t => { t with centroid := (detCentroids dets).getD p.2 (0, 0),
                             bbox := (detBoxes dets).getD p.2 (0, 0, 0, 0) }) ∧
      Dict.lookup (matchPhase s dets).1.disappeared ((Dict.keys s.objects).getD p.1 0) =
        some 0) := by
obtain ⟨hkeq, hnodup, _⟩ := hinv
have hidlen : (Dict.keys s.objects).length = s.objects.length := List.length_map _ _
have hmm := matchFold_state (Dict.keys s.objects) (detCentroids dets) (detBoxes dets)
  (trackD s dets) (trackAmin s dets) hnodup
  (sortedRowsBy (trackRowmin s dets) s.objects.length) s ([], [], [])
  (fun r hr => by rw [hidlen]; exact mem_sortedRowsBy.1 hr)
  (fun r hr => by rw [← hkeq]; exact getD_mem hr)
obtain ⟨q1, q2, q3, q4, q5, q6, Δ, hms, hur, huc, hsub, hprops, hunt, htch⟩ := hmm
have hΔ : trackMatches s dets = Δ := by
  have h0 : trackMatches s dets = (matchPhase s dets).2.2.2 := by
    rw [trackMatches_eq, matchPhase_snd]
  exact h0.trans (hms.trans (List.nil_append Δ))
have hUR : (matchPhase s dets).2.1 = (trackMatches s dets).map Prod.fst := by
  rw [hΔ]
  exact hur.trans (List.nil_append _)
have hUC : (matchPhase s dets).2.2.1 = (trackMatches s dets).map Prod.snd := by
  rw [hΔ]
  exact huc.trans (List.nil_append _)
refine ⟨q1, q2, q3, q5, q6, hUR, hUC, ?_, ?_, ?_, ?_⟩
· rw [hΔ]
  exact hsub
· rw [hΔ]
  intro p hp
  obtain ⟨h1, _, h3, h4⟩ := hprops p hp
  exact ⟨mem_sortedRowsBy.1 h1, h3, h4⟩
· rw [hΔ]
  exact hunt
· rw [hΔ]
  exact htch

/-- The state after `update`'s match loop and unused-row aging loop:
matched tracks carry the new centroid/bbox with counter 0, unmatched
tracks age (and disappear past the threshold), nothing else changes. -/
theorem agePhase_spec (s : TrackerState) (dets : List Detection) (hinv : TrackerInv s) :
    (agePhase s dets).next_object_id = s.next_object_id ∧
    (agePhase s dets).max_disappeared = s.max_disappeared ∧
    (agePhase s dets).assigned = s.assigned ∧
    Dict.keys (agePhase s dets).objects = Dict.keys (agePhase s dets).disappeared ∧
    (Dict.keys (agePhase s dets).objects).Nodup ∧
    (Dict.keys (agePhase s dets).disappeared).Nodup ∧
    (∀ k ∈ Dict.keys (agePhase s dets).objects, k ∈ Dict.keys s.objects) ∧
    (∀ k ∈ Dict.keys (agePhase s dets).disappeared, k ∈ Dict.keys s.objects) ∧
    (∀ p ∈ trackMatches s dets,
      Dict.lookup (agePhase s dets).objects ((Dict.keys s.objects).getD p.1 0) =
        (Dict.lookup s.objects ((Dict.keys s.objects).getD p.1 0)).map
          (fun t => { t with centroid := (detCentroids dets).getD p.2 (0, 0),
                             bbox := (detBoxes dets).getD p.2 (0, 0, 0, 0) }) ∧
      Dict.lookup (agePhase s dets).disappeared ((Dict.keys s.objects).getD p.1 0) =
        some 0) ∧
    (∀ r, r < s.objects.length → r ∉ (trackMatches s dets).map Prod.fst →
      (s.max_disappeared < cnt s ((Dict.keys s.objects).getD r 0) + 1 →
        Dict.lookup (agePhase s dets).objects ((Dict.keys s.objects).getD r 0) = none ∧
        Dict.lookup (agePhase s dets).disappeared ((Dict.keys s.objects).getD r 0) = none) ∧
      (¬ s.max_disappeared < cnt s ((Dict.keys s.objects).getD r 0) + 1 →
        Dict.lookup (agePhase s dets).objects ((Dict.keys s.objects).getD r 0) =
          Dict.lookup s.objects ((Dict.keys s.objects).getD r 0) ∧
        Dict.lookup (agePhase s dets).disappeared ((Dict.keys s.objects).getD r 0) =
          some (cnt s ((Dict.keys s.objects).getD r 0) + 1))) := by
obtain ⟨hkeq, hnodup, hbound⟩ := hinv
have hidlen : (Dict.keys s.objects).length = s.objects.length := List.length_map _ _
obtain ⟨m1, m2, m3, m5, m6, m7, m8, m9, m10, m11, m12⟩ :=
  matchPhase_spec s dets ⟨hkeq, hnodup, hbound⟩
have hmemUR : ∀ r ∈ (List.range s.objects.length).filter
    (fun r => r ∉ (matchPhase s dets).2.1), r < s.objects.length := by
  intro r hr
  exact List.mem_range.1 (List.mem_filter.1 hr).1
have hUR_iff : ∀ r, r ∈ (List.range s.objects.length).filter
    (fun r => r ∉ (matchPhase s dets).2.1) ↔
    r < s.objects.length ∧ r ∉ (trackMatches s dets).map Prod.fst := by
  intro r
  rw [List.mem_filter, List.mem_range, m7]
  simp
have hAge : agePhase s dets =
    (((List.range s.objects.length).filter fun r => r ∉ (matchPhase s dets).2.1).map
      (fun r => (Dict.keys s.objects).getD r 0)).foldl ageStep (matchPhase s dets).1 := by
  rw [agePhase]
  exact (List.foldl_map _ _ _ _).symm
have hksnd : (((List.range s.objects.length).filter fun r => r ∉ (matchPhase s dets).2.1).map
    (fun r => (Dict.keys s.objects).getD r 0)).Nodup := by
  refine List.Nodup.map_on ?_ ((List.nodup_range _).filter _)
  intro x hx y hy he
  exact getD_inj hnodup (by rw [hidlen]; exact hmemUR x hx)
    (by rw [hidlen]; exact hmemUR y hy) he
have hksmem : ∀ k ∈ ((List.range s.objects.length).filter
    fun r => r ∉ (matchPhase s dets).2.1).map (fun r => (Dict.keys s.objects).getD r 0),
    k ∈ Dict.keys (matchPhase s dets).1.disappeared := by
  intro k hk
  obtain ⟨r, hr, he⟩ := List.mem_map.1 hk
  rw [m6, ← hkeq, ← he]
  exact getD_mem (by rw [hidlen]; exact hmemUR r hr)
have hnd₁o : (Dict.keys (matchPhase s dets).1.objects).Nodup := by rw [m5]; exact hnodup
have hnd₁d : (Dict.keys (matchPhase s dets).1.disappeared).Nodup := by
  rw [m6, ← hkeq]
  exact hnodup
obtain ⟨a1, a2, a3, a4, a5, a6, apt⟩ :=
  ageRun _ (matchPhase s dets).1 hksnd hksmem hnd₁o hnd₁d
rw [hAge]
have hinjrow : ∀ r₁, r₁ < s.objects.length → ∀ r₂, r₂ < s.objects.length →
    (Dict.keys s.objects).getD r₁ 0 = (Dict.keys s.objects).getD r₂ 0 → r₁ = r₂ := by
  intro r₁ h₁ r₂ h₂ he
  exact getD_inj hnodup (by rw [hidlen]; exact h₁) (by rw [hidlen]; exact h₂) he
have hmatched_not_ks : ∀ p ∈ trackMatches s dets,
    (Dict.keys s.objects).getD p.1 0 ∉
      ((List.range s.objects.length).filter fun r => r ∉ (matchPhase s dets).2.1).map
        (fun r => (Dict.keys s.objects).getD r 0) := by
  intro p hp hc
  obtain ⟨r, hr, he⟩ := List.mem_map.1 hc
  obtain ⟨hrlt, hrnm⟩ := (hUR_iff r).1 hr
  have : r = p.1 := hinjrow r hrlt p.1 (m10 p hp).1 he
  rw [this] at hrnm
  exact hrnm (List.mem_map_of_mem Prod.fst hp)
constructor
· rw [a1, m1]
constructor
· rw [a2, m2]
constructor
· rw [a3, m3]
constructor
· refine a6 ?_
  rw [m5, m6, hkeq]
constructor
· exact a4
constructor
· exact a5
constructor
· intro k hk
  have hk' : ¬ Dict.lookup (List.foldl ageStep (matchPhase s dets).1
      (((List.range s.objects.length).filter fun r => r ∉ (matchPhase s dets).2.1).map
        (fun r => (Dict.keys s.objects).getD r 0))).objects k = none :=
    fun he => (Dict.lookup_eq_none_iff.1 he) hk
  by_cases hkin : k ∈ ((List.range s.objects.length).filter
      fun r => r ∉ (matchPhase s dets).2.1).map (fun r => (Dict.keys s.objects).getD r 0)
  · obtain ⟨r, hr, he⟩ := List.mem_map.1 hkin
    rw [← he]
    exact getD_mem (by rw [hidlen]; exact hmemUR r hr)
  · have h2 := ((apt k).1 hkin).1
    rw [← m5]
    by_contra hc
    rw [← Dict.lookup_eq_none_iff] at hc
    exact hk' (h2.trans hc)
constructor
· intro k hk
  have hk' : ¬ Dict.lookup (List.foldl ageStep (matchPhase s dets).1
      (((List.range s.objects.length).filter fun r => r ∉ (matchPhase s dets).2.1).map
        (fun r => (Dict.keys s.objects).getD r 0))).disappeared k = none :=
    fun he => (Dict.lookup_eq_none_iff.1 he) hk
  by_cases hkin : k ∈ ((List.range s.objects.length).filter
      fun r => r ∉ (matchPhase s dets).2.1).map (fun r => (Dict.keys s.objects).getD r 0)
  · obtain ⟨r, hr, he⟩ := List.mem_map.1 hkin
    rw [← he]
    exact getD_mem (by rw [hidlen]; exact hmemUR r hr)
  · have h2 := ((apt k).1 hkin).2
    by_contra hc
    have hc' : Dict.lookup (matchPhase s dets).1.disappeared k = none := by
      rw [Dict.lookup_eq_none_iff, m6, ← hkeq]
      exact hc
    exact hk' (h2.trans hc')
constructor
· intro p hp
  have hnot := hmatched_not_ks p hp
  obtain ⟨ho, hd⟩ := (apt _).1 hnot
  obtain ⟨mo, md⟩ := m12 p hp
  exact ⟨ho.trans mo, hd.trans md⟩
· intro r hrlt hrnm
  have hoid_ne : ∀ p ∈ trackMatches s dets,
      (Dict.keys s.objects).getD p.1 0 ≠ (Dict.keys s.objects).getD r 0 := by
    intro p hp he
    have : p.1 = r := hinjrow p.1 (m10 p hp).1 r hrlt he
    exact hrnm (this ▸ List.mem_map_of_mem Prod.fst hp)
  obtain ⟨uo, ud⟩ := m11 _ hoid_ne
  have hcnt : cnt (matchPhase s dets).1 ((Dict.keys s.objects).getD r 0) =
      cnt s ((Dict.keys s.objects).getD r 0) := by
    rw [cnt, cnt, ud]
  have hkin : (Dict.keys s.objects).getD r 0 ∈
      ((List.range s.objects.length).filter fun r => r ∉ (matchPhase s dets).2.1).map
        (fun r => (Dict.keys s.objects).getD r 0) :=
    List.mem_map_of_mem _ ((hUR_iff r).2 ⟨hrlt, hrnm⟩)
  obtain ⟨hrem, hkeep⟩ := (apt _).2 hkin
  constructor
  · intro h
    exact hrem (by rw [m2, hcnt]; exact h)
  · intro h
    obtain ⟨ho, hd⟩ := hkeep (by rw [m2, hcnt]; exact h)
    exact ⟨ho.trans uo, by rw [hd, hcnt]⟩

/-- Full input/output characterization of `update` on its match path. -/
theorem update_match_spec (s : TrackerState) (dets : List Detection)
    (hd : ¬ dets = []) (ho : ¬ s.objects = []) (hinv : TrackerInv s) :
    (∀ p ∈ trackMatches s dets,
      p.1 < s.objects.length ∧ p.2 < dets.length ∧ p.2 = trackAmin s dets p.1 ∧
      trackD s dets p.1 p.2 ≤ 2500) ∧
    ((trackMatches s dets).map Prod.fst).Pairwise
      (fun a b => trackRowmin s dets a ≤ trackRowmin s dets b) ∧
    (update s dets).max_disappeared = s.max_disappeared ∧
    (update s dets).next_object_id = s.next_object_id +
      ((List.range dets.length).filter fun c => c ∉ (matchPhase s dets).2.2.1).length ∧
    (update s dets).assigned = s.assigned ++
      ((List.range (((List.range dets.length).filter
        fun c => c ∉ (matchPhase s dets).2.2.1).length)).map
          fun i => s.next_object_id + i) ∧
    (∀ p ∈ trackMatches s dets,
      Dict.lookup (update s dets).objects ((Dict.keys s.objects).getD p.1 0) =
        (Dict.lookup s.objects ((Dict.keys s.objects).getD p.1 0)).map
          (fun t => { t with centroid := (detCentroids dets).getD p.2 (0, 0),
                             bbox := (detBoxes dets).getD p.2 (0, 0, 0, 0) }) ∧
      Dict.lookup (update s dets).disappeared ((Dict.keys s.objects).getD p.1 0) =
        some 0) ∧
    (∀ r, r < s.objects.length → r ∉ (trackMatches s dets).map Prod.fst →
      (s.max_disappeared < cnt s ((Dict.keys s.objects).getD r 0) + 1 →
        Dict.lookup (update s dets).objects ((Dict.keys s.objects).getD r 0) = none ∧
        Dict.lookup (update s dets).disappeared ((Dict.keys s.objects).getD r 0) = none) ∧
      (¬ s.max_disappeared < cnt s ((Dict.keys s.objects).getD r 0) + 1 →
        Dict.lookup (update s dets).objects ((Dict.keys s.objects).getD r 0) =
          Dict.lookup s.objects ((Dict.keys s.objects).getD r 0) ∧
        Dict.lookup (update s dets).disappeared ((Dict.keys s.objects).getD r 0) =
          some (cnt s ((Dict.keys s.objects).getD r 0) + 1))) ∧
    (∀ c, c < dets.length → c ∉ (trackMatches s dets).map Prod.snd →
      ∃ oid, s.next_object_id ≤ oid ∧
        Dict.lookup (update s dets).objects oid =
          some ⟨(detCentroids dets).getD c (0, 0), (detBoxes dets).getD c (0, 0, 0, 0),
            none⟩ ∧
        Dict.lookup (update s dets).disappeared oid = some 0) ∧
    TrackerInv (update s dets) ∧
    (∀ k ∈ Dict.keys (update s dets).objects,
      cnt (update s dets) k ≤ s.max_disappeared) := by
obtain ⟨hkeq, hnodup, hbound⟩ := hinv
have hidlen : (Dict.keys s.objects).length = s.objects.length := List.length_map _ _
have hC : 0 < dets.length := List.length_pos.2 hd
obtain ⟨m1, m2, m3, m5, m6, m7, m8, m9, m10, m11, m12⟩ :=
  matchPhase_spec s dets ⟨hkeq, hnodup, hbound⟩
obtain ⟨a1, a2, a3, a4, a5n, a6n, a7sub, a8sub, a9m, a10um⟩ :=
  agePhase_spec s dets ⟨hkeq, hnodup, hbound⟩
rw [update_match_decomp s dets hd ho]
have hReg : regPhase s dets =
    (((List.range dets.length).filter fun c => c ∉ (matchPhase s dets).2.2.1).map
      (fun c => ((detCentroids dets).getD c (0, 0), (detBoxes dets).getD c (0, 0, 0, 0)))).foldl
      (fun st p => register st p.1 p.2) (agePhase s dets) := by
  rw [regPhase]
  exact (List.foldl_map
    (fun c => ((detCentroids dets).getD c (0, 0), (detBoxes dets).getD c (0, 0, 0, 0)))
    (fun st p => register st p.1 p.2) _ _).symm
have hb₂o : ∀ k ∈ Dict.keys (agePhase s dets).objects,
    k < (agePhase s dets).next_object_id := by
  intro k hk
  rw [a1]
  exact hbound k (a7sub k hk)
have hb₂d : ∀ k ∈ Dict.keys (agePhase s dets).disappeared,
    k < (agePhase s dets).next_object_id := by
  intro k hk
  rw [a1]
  exact hbound k (a8sub k hk)
obtain ⟨r1, r2, r3, r4, r5, r6⟩ :=
  registerRun
    (((List.range dets.length).filter fun c => c ∉ (matchPhase s dets).2.2.1).map
      (fun c => ((detCentroids dets).getD c (0, 0), (detBoxes dets).getD c (0, 0, 0, 0))))
    (agePhase s dets) hb₂o hb₂d
simp only [a1] at r1 r4 r5 r6
rw [List.length_map] at r1 r4 r5 r6
have hb₂o' : ∀ k ∈ Dict.keys (agePhase s dets).objects, k < s.next_object_id := by
  intro k hk
  exact hbound k (a7sub k hk)
have hb₂d' : ∀ k ∈ Dict.keys (agePhase s dets).disappeared, k < s.next_object_id := by
  intro k hk
  exact hbound k (a8sub k hk)
refine ⟨?_, ?_, ?_, ?_, ?_, ?_, ?_, ?_, ?_, ?_⟩
· intro p hp
  obtain ⟨h1, h2, h3⟩ := m10 p hp
  refine ⟨h1, ?_, h2, h3⟩
  rw [h2]
  exact argminIdx_lt _ hC
· exact (sortedRowsBy_sorted (trackRowmin s dets) s.objects.length).sublist m9
· rw [hReg, r2, a2]
· rw [hReg, r1]
· rw [hReg, r6, a3]
· intro p hp
  obtain ⟨ho₁, hd₁⟩ := a9m p hp
  have hmo : (Dict.keys s.objects).getD p.1 0 ∈ Dict.keys (agePhase s dets).objects := by
    refine Dict.mem_keys_of_lookup (v := ?_) ?_
    · exact Option.getD ((Dict.lookup s.objects ((Dict.keys s.objects).getD p.1 0)).map
        (fun t => { t with centroid := (detCentroids dets).getD p.2 (0, 0),
                           bbox := (detBoxes dets).getD p.2 (0, 0, 0, 0) }))
        ⟨(0, 0), (0, 0, 0, 0), none⟩
    · rw [ho₁]
      have hmem : (Dict.keys s.objects).getD p.1 0 ∈ Dict.keys s.objects :=
        getD_mem (by rw [hidlen]; exact (m10 p hp).1)
      cases hcl : Dict.lookup s.objects ((Dict.keys s.objects).getD p.1 0) with
      | none => exact absurd (Dict.lookup_eq_none_iff.1 hcl) (fun hh => hh hmem)
      | some t => rfl
  have hmd : (Dict.keys s.objects).getD p.1 0 ∈ Dict.keys (agePhase s dets).disappeared :=
    Dict.mem_keys_of_lookup hd₁
  constructor
  · rw [hReg, r4, Dict.lookup_append_left hmo]
    exact ho₁
  · rw [hReg, r5, Dict.lookup_append_left hmd]
    exact hd₁
· intro r hr hnm
  obtain ⟨hrem, hkeep⟩ := a10um r hr hnm
  have hmem : (Dict.keys s.objects).getD r 0 ∈ Dict.keys s.objects :=
    getD_mem (by rw [hidlen]; exact hr)
  have hlt : (Dict.keys s.objects).getD r 0 < s.next_object_id := hbound _ hmem
  constructor
  · intro h
    obtain ⟨ho₁, hd₁⟩ := hrem h
    constructor
    · rw [hReg, r4, Dict.lookup_append_right (Dict.lookup_eq_none_iff.1 ho₁)]
      exact lookup_range_map_lt _ _ _ _ hlt
    · rw [hReg, r5, Dict.lookup_append_right (Dict.lookup_eq_none_iff.1 hd₁)]
      exact lookup_range_map_lt _ _ _ _ hlt
  · intro h
    obtain ⟨ho₁, hd₁⟩ := hkeep h
    have hso : Dict.lookup s.objects ((Dict.keys s.objects).getD r 0) ≠ none := by
      rw [Ne, Dict.lookup_eq_none_iff]
      intro hc
      exact hc hmem
    have hmo : (Dict.keys s.objects).getD r 0 ∈ Dict.keys (agePhase s dets).objects := by
      by_contra hc
      rw [← Dict.lookup_eq_none_iff] at hc
      exact hso (ho₁.symm.trans hc)
    have hmd : (Dict.keys s.objects).getD r 0 ∈ Dict.keys (agePhase s dets).disappeared :=
      Dict.mem_keys_of_lookup hd₁
    constructor
    · rw [hReg, r4, Dict.lookup_append_left hmo]
      exact ho₁
    · rw [hReg, r5, Dict.lookup_append_left hmd]
      exact hd₁
· intro c hc hcnm
  have hcu : c ∈ (List.range dets.length).filter
      fun c => c ∉ (matchPhase s dets).2.2.1 := by
    rw [List.mem_filter]
    refine ⟨List.mem_range.2 hc, ?_⟩
    rw [m8]
    exact decide_eq_true hcnm
  obtain ⟨i, hil, hie⟩ := exists_index_of_mem hcu
  have hil' : i < (((List.range dets.length).filter
      fun c => c ∉ (matchPhase s dets).2.2.1).map
      (fun c => ((detCentroids dets).getD c (0, 0),
        (detBoxes dets).getD c (0, 0, 0, 0)))).length := by
    rw [List.length_map]
    exact hil
  have hgetD : (((List.range dets.length).filter
        fun c => c ∉ (matchPhase s dets).2.2.1).map
          (fun c => ((detCentroids dets).getD c (0, 0),
            (detBoxes dets).getD c (0, 0, 0, 0)))).getD i ((0, 0), (0, 0, 0, 0)) =
      ((detCentroids dets).getD c (0, 0), (detBoxes dets).getD c (0, 0, 0, 0)) := by
    rw [List.getD_eq_getElem _ _ hil', List.getElem_map, ← List.getD_eq_getElem _ 0 hil, hie]
  refine ⟨s.next_object_id + i, Nat.le_add_right _ _, ?_, ?_⟩
  · have hnot : s.next_object_id + i ∉ Dict.keys (agePhase s dets).objects := by
      intro hcm
      have := hb₂o' _ hcm
      omega
    rw [hReg, r4, Dict.lookup_append_right hnot, lookup_range_map _ _ _ _ hil, hgetD]
  · have hnot : s.next_object_id + i ∉ Dict.keys (agePhase s dets).disappeared := by
      intro hcm
      have := hb₂d' _ hcm
      omega
    rw [hReg, r5, Dict.lookup_append_right hnot, lookup_range_map _ _ _ _ hil]
· constructor
  · rw [hReg, r4, r5, Dict.keys_append, Dict.keys_append, a4, keys_range_map, keys_range_map]
  constructor
  · rw [hReg, r4, Dict.keys_append, keys_range_map]
    refine List.Nodup.append a5n ?_ ?_
    · refine List.Nodup.map ?_ (List.nodup_range _)
      exact fun a b hab => Nat.add_left_cancel hab
    · intro k hk hknew
      obtain ⟨j, _, hje⟩ := List.mem_map.1 hknew
      have := hb₂o' k hk
      omega
  · intro k hk
    rw [hReg, r4, Dict.keys_append, keys_range_map] at hk
    rw [hReg, r1]
    rcases List.mem_append.1 hk with h | h
    · have := hb₂o' k h
      omega
    · obtain ⟨j, hj, hje⟩ := List.mem_map.1 h
      rw [List.mem_range] at hj
      omega
· intro k hk
  rw [hReg, r4, Dict.keys_append, keys_range_map] at hk
  have hcnt : cnt ((((List.range dets.length).filter
      fun c => c ∉ (matchPhase s dets).2.2.1).map
      (fun c => ((detCentroids dets).getD c (0, 0), (detBoxes dets).getD c (0, 0, 0, 0)))).foldl
      (fun st p => register st p.1 p.2) (agePhase s dets)) k =
      (Dict.lookup ((agePhase s dets).disappeared ++
        (List.range (((List.range dets.length).filter
          fun c => c ∉ (matchPhase s dets).2.2.1).length)).map
            (fun i => (s.next_object_id + i, 0))) k).getD 0 := by
    rw [cnt, r5]
  rw [hReg]
  rw [hcnt]
  rcases List.mem_append.1 hk with h | h
  · have hks : k ∈ Dict.keys s.objects := a7sub k h
    obtain ⟨r, hr, hre⟩ := exists_index_of_mem hks
    rw [hidlen] at hr
    by_cases hrm : r ∈ (trackMatches s dets).map Prod.fst
    · obtain ⟨p, hp, hpe⟩ := List.mem_map.1 hrm
      obtain ⟨_, hd₁⟩ := a9m p hp
      rw [hpe, hre] at hd₁
      have hmd : k ∈ Dict.keys (agePhase s dets).disappeared := Dict.mem_keys_of_lookup hd₁
      rw [Dict.lookup_append_left hmd, hd₁]
      exact Nat.zero_le _
    · obtain ⟨hrem, hkeep⟩ := a10um r hr hrm
      by_cases hcs : s.max_disappeared < cnt s ((Dict.keys s.objects).getD r 0) + 1
      · obtain ⟨ho₁, _⟩ := hrem hcs
        rw [hre] at ho₁
        exact absurd (Dict.lookup_eq_none_iff.1 ho₁) (fun hh => hh h)
      · obtain ⟨_, hd₁⟩ := hkeep hcs
        rw [hre] at hd₁ hcs
        have hmd : k ∈ Dict.keys (agePhase s dets).disappeared := Dict.mem_keys_of_lookup hd₁
        rw [Dict.lookup_append_left hmd, hd₁, Option.getD_some]
        omega
  · obtain ⟨j, hj, hje⟩ := List.mem_map.1 h
    rw [List.mem_range] at hj
    have hnot : k ∉ Dict.keys (agePhase s dets).disappeared := by
      intro hcm
      have := hb₂d' k hcm
      omega
    rw [Dict.lookup_append_right hnot, ← hje, lookup_range_map _ _ _ _ hj]
    exact Nat.zero_le _

/-! ### The empty and cold-start paths of `update` -/

theorem update_empty (s : TrackerState) :
    update s [] = (Dict.keys s.disappeared).foldl ageStep s :=
rfl

theorem update_cold (s : TrackerState) (dets : List Detection) (hd : ¬ dets = [])
    (ho : s.objects = []) :
    update s dets = ((detCentroids dets).zip (detBoxes dets)).foldl
      (fun st p => register st p.1 p.2) s := by
simp only [update, hd, if_false, ho, detCentroids, detBoxes]
rfl

/-- The empty `update`: every counter increments, tracks past the threshold
are removed, nothing else changes. -/
theorem update_empty_spec (s : TrackerState) (hinv : TrackerInv s) :
    TrackerInv (update s []) ∧
    (update s []).next_object_id = s.next_object_id ∧
    (update s []).max_disappeared = s.max_disappeared ∧
    (update s []).assigned = s.assigned ∧
    (∀ k, k ∈ Dict.keys (update s []).objects ↔
      k ∈ Dict.keys s.objects ∧ cnt s k + 1 ≤ s.max_disappeared) ∧
    (∀ k ∈ Dict.keys (update s []).objects,
      Dict.lookup (update s []).disappeared k = some (cnt s k + 1) ∧
      Dict.lookup (update s []).objects k = Dict.lookup s.objects k) := by
obtain ⟨hkeq, hnodup, hbound⟩ := hinv
have hndd : (Dict.keys s.disappeared).Nodup := hkeq ▸ hnodup
obtain ⟨a1, a2, a3, a4, a5, a6, apt⟩ :=
  ageRun (Dict.keys s.disappeared) s hndd (fun k hk => hk) hnodup hndd
rw [update_empty]
have hmem_iff : ∀ k, k ∈ Dict.keys ((Dict.keys s.disappeared).foldl ageStep s).objects ↔
    k ∈ Dict.keys s.objects ∧ cnt s k + 1 ≤ s.max_disappeared := by
  intro k
  by_cases hk : k ∈ Dict.keys s.disappeared
  · obtain ⟨hrem, hkeep⟩ := (apt k).2 hk
    by_cases hcs : s.max_disappeared < cnt s k + 1
    · constructor
      · intro hm
        exact absurd (Dict.lookup_eq_none_iff.1 (hrem hcs).1) (fun hh => hh hm)
      · intro hm
        exact absurd hm.2 (Nat.not_le.2 hcs)
    · obtain ⟨ho₁, _⟩ := hkeep hcs
      constructor
      · intro hm
        refine ⟨?_, by omega⟩
        by_contra hc
        rw [← Dict.lookup_eq_none_iff] at hc
        exact (Dict.lookup_eq_none_iff.1 (ho₁.trans hc)) hm
      · intro hm
        by_contra hc
        rw [← Dict.lookup_eq_none_iff] at hc
        rw [ho₁] at hc
        rw [Dict.lookup_eq_none_iff] at hc
        exact hc hm.1
  · obtain ⟨ho₁, _⟩ := (apt k).1 hk
    rw [← hkeq] at hk
    constructor
    · intro hm
      have hnone : Dict.lookup s.objects k = none := Dict.lookup_eq_none_iff.2 hk
      exact absurd (Dict.lookup_eq_none_iff.1 (ho₁.trans hnone)) (fun hh => hh hm)
    · intro hm
      exact absurd hm.1 hk
refine ⟨⟨a6 hkeq, a4, ?_⟩, a1, a2, a3, hmem_iff, ?_⟩
· intro k hk
  rw [a1]
  exact hbound k ((hmem_iff k).1 hk).1
· intro k hk
  obtain ⟨hks, hcnt⟩ := (hmem_iff k).1 hk
  have hkd : k ∈ Dict.keys s.disappeared := hkeq ▸ hks
  obtain ⟨hrem, hkeep⟩ := (apt k).2 hkd
  obtain ⟨ho₁, hd₁⟩ := hkeep (by omega)
  exact ⟨hd₁, ho₁⟩

/-- Iterating the empty update: survivors age linearly and stay within the
threshold. -/
theorem emptyUpdates_spec (s : TrackerState) (hinv : TrackerInv s) :
    ∀ n : Nat,
      TrackerInv (emptyUpdates n s) ∧
      (emptyUpdates n s).max_disappeared = s.max_disappeared ∧
      (∀ k ∈ Dict.keys (emptyUpdates n s).objects,
        k ∈ Dict.keys s.objects ∧ cnt (emptyUpdates n s) k = cnt s k + n ∧
        (0 < n → cnt s k + n ≤ s.max_disappeared)) := by
intro n
induction n with
| zero =>
  refine ⟨hinv, rfl, ?_⟩
  intro k hk
  exact ⟨hk, rfl, fun hc => absurd hc (lt_irrefl 0)⟩
| succ n ih =>
  obtain ⟨ihinv, ihmax, ihpt⟩ := ih
  have hstep : emptyUpdates (n + 1) s = update (emptyUpdates n s) [] :=
    Function.iterate_succ_apply' _ _ _
  obtain ⟨e1, _, e3, _, e5, e6⟩ := update_empty_spec (emptyUpdates n s) ihinv
  refine ⟨by rw [hstep]; exact e1, by rw [hstep, e3, ihmax], ?_⟩
  intro k hk
  rw [hstep] at hk
  obtain ⟨hkn, hcnt⟩ := (e5 k).1 hk
  obtain ⟨hk₀, hceq, _⟩ := ihpt k hkn
  obtain ⟨hd₁, _⟩ := e6 k hk
  refine ⟨hk₀, ?_, ?_⟩
  · rw [hstep]
    rw [cnt, hd₁, Option.getD_some, hceq]
    omega
  · intro _
    rw [hceq, ihmax] at hcnt
    omega

/-- The cold-start path: every detection becomes a fresh track with the
bbox center as centroid and counter 0. -/
theorem update_cold_spec (s : TrackerState) (dets : List Detection)
    (hd : ¬ dets = []) (ho : s.objects = []) (hinv : TrackerInv s) :
    (update s dets).objects = (List.range dets.length).map
      (fun i => (s.next_object_id + i,
        ⟨bboxCenter (dets.getD i ⟨(0, 0, 0, 0)⟩).bbox, (dets.getD i ⟨(0, 0, 0, 0)⟩).bbox,
         none⟩)) ∧
    (update s dets).disappeared = (List.range dets.length).map
      (fun i => (s.next_object_id + i, 0)) ∧
    (update s dets).next_object_id = s.next_object_id + dets.length ∧
    (update s dets).max_disappeared = s.max_disappeared ∧
    (update s dets).assigned = s.assigned ++
      (List.range dets.length).map (fun i => s.next_object_id + i) := by
obtain ⟨hkeq, _, _⟩ := hinv
have hdis : s.disappeared = [] := by
  have h0 : Dict.keys s.disappeared = [] := by
    rw [← hkeq, ho]
    rfl
  cases hda : s.disappeared with
  | nil => rfl
  | cons p l =>
    rw [hda] at h0
    exact absurd h0 (by simp [Dict.keys])
have hzlen : ((detCentroids dets).zip (detBoxes dets)).length = dets.length := by
  rw [List.length_zip, detCentroids, detBoxes, List.length_map, List.length_map,
    Nat.min_self]
have hget : ∀ i, i < dets.length →
    ((detCentroids dets).zip (detBoxes dets)).getD i ((0, 0), (0, 0, 0, 0)) =
      (bboxCenter (dets.getD i ⟨(0, 0, 0, 0)⟩).bbox, (dets.getD i ⟨(0, 0, 0, 0)⟩).bbox) := by
  intro i hi
  have hi' : i < ((dets.map fun d => bboxCenter d.bbox).zip
      (dets.map fun d => d.bbox)).length := by
    rw [List.length_zip, List.length_map, List.length_map, Nat.min_self]
    exact hi
  show ((dets.map fun d => bboxCenter d.bbox).zip (dets.map fun d => d.bbox)).getD i
      ((0, 0), (0, 0, 0, 0)) = _
  rw [List.getD_eq_getElem _ _ hi', List.getElem_zip, List.getD_eq_getElem _ _ hi,
    List.getElem_map, List.getElem_map]
obtain ⟨r1, r2, r3, r4, r5, r6⟩ :=
  registerRun ((detCentroids dets).zip (detBoxes dets)) s
    (by rw [ho]; intro k hk; exact absurd hk (by simp [Dict.keys]))
    (by rw [hdis]; intro k hk; exact absurd hk (by simp [Dict.keys]))
rw [update_cold s dets hd ho]
rw [hzlen] at r1 r4 r5 r6
refine ⟨?_, ?_, r1, r2, r6⟩
· rw [r4, ho, List.nil_append]
  refine List.map_congr_left ?_
  intro i hi
  rw [hget i (List.mem_range.1 hi)]
· rw [r5, hdis, List.nil_append]

/-- `update` preserves the tracker's structural invariant on every path. -/
theorem update_inv (s : TrackerState) (dets : List Detection) (hinv : TrackerInv s) :
    TrackerInv (update s dets) := by
by_cases hd : dets = []
· rw [hd]
  exact (update_empty_spec s hinv).1
· by_cases ho : s.objects = []
  · obtain ⟨c1, c2, c3, _, _⟩ := update_cold_spec s dets hd ho hinv
    refine ⟨?_, ?_, ?_⟩
    · rw [c1, c2, keys_range_map, keys_range_map]
    · rw [c1, keys_range_map]
      refine List.Nodup.map ?_ (List.nodup_range _)
      exact fun a b hab => Nat.add_left_cancel hab
    · intro k hk
      rw [c1, keys_range_map] at hk
      obtain ⟨i, hi, he⟩ := List.mem_map.1 hk
      rw [List.mem_range] at hi
      rw [c3]
      omega
  · exact (update_match_spec s dets hd ho hinv).2.2.2.2.2.2.2.2.1

theorem mem_of_getLastQ {l : List Nat} {x : Nat} (h : x ∈ l.getLast?) : x ∈ l := by
obtain ⟨hne, he⟩ := List.mem_getLast?_eq_getLast h
rw [he]
exact List.getLast_mem hne

theorem chain_lt_range_map_add (b n : Nat) :
    ((List.range n).map fun i => b + i).Chain' (· < ·) := by
induction n with
| zero => exact List.chain'_nil
| succ n ih =>
  rw [List.range_succ, List.map_append]
  refine List.Chain'.append ih (List.chain'_singleton _) ?_
  intro x hx y hy
  have hxm : x ∈ (List.range n).map fun i => b + i := mem_of_getLastQ hx
  obtain ⟨i, hi, he⟩ := List.mem_map.1 hxm
  rw [List.mem_range] at hi
  have hym : y = b + n := by
    rw [show (List.map (fun i => b + i) [n]).head? = some (b + n) from rfl] at hy
    exact (Option.mem_some_iff.1 hy).symm
  omega

/-- Extending a strictly increasing bounded log with fresh consecutive ids
keeps it strictly increasing and bounded. -/
theorem IdLog_extend {l : List Nat} {b n : Nat} (hc : l.Chain' (· < ·))
    (hb : ∀ a ∈ l, a < b) :
    (l ++ (List.range n).map fun i => b + i).Chain' (· < ·) ∧
    (∀ a ∈ l ++ (List.range n).map fun i => b + i, a < b + n) := by
constructor
· refine List.Chain'.append hc (chain_lt_range_map_add b n) ?_
  intro x hx y hy
  have hxl : x < b := hb x (mem_of_getLastQ hx)
  cases n with
  | zero => exact absurd hy (by simp)
  | succ m =>
    rw [List.range_succ_eq_map, List.map_cons, List.head?_cons] at hy
    have hyv := Option.mem_some_iff.1 hy
    omega
· intro a ha
  rcases List.mem_append.1 ha with h | h
  · have := hb a h
    omega
  · obtain ⟨i, hi, he⟩ := List.mem_map.1 h
    rw [List.mem_range] at hi
    omega

/-- `update` preserves the ghost id-log invariant on every path. -/
theorem update_IdLog (s : TrackerState) (dets : List Detection) (hinv : TrackerInv s)
    (hlog : IdLog s) : IdLog (update s dets) := by
obtain ⟨hbnd, hch⟩ := hlog
by_cases hd : dets = []
· rw [hd]
  obtain ⟨_, e2, _, e4, _, _⟩ := update_empty_spec s hinv
  exact ⟨by rw [e4, e2]; exact hbnd, by rw [e4]; exact hch⟩
· by_cases ho : s.objects = []
  · obtain ⟨_, _, c3, _, c5⟩ := update_cold_spec s dets hd ho hinv
    obtain ⟨hc', hb'⟩ := IdLog_extend hch hbnd
    exact ⟨by rw [c5, c3]; exact hb', by rw [c5]; exact hc'⟩
  · obtain ⟨_, _, _, c4, c5, _⟩ := update_match_spec s dets hd ho hinv
    obtain ⟨hc', hb'⟩ := IdLog_extend hch hbnd
    exact ⟨by rw [c5, c4]; exact hb', by rw [c5]; exact hc'⟩

/-! ### Per-row vs global greedy matching (for the refinement claim) -/

theorem perRowFold_all (D : Nat → Nat → Nat) (amin : Nat → Nat) :
    ∀ (l : List Nat) (uR uC : List Nat) (acc : List (Nat × Nat)),
      l.Nodup →
      (∀ r ∈ l, r ∉ uR) →
      (∀ r ∈ l, amin r ∉ uC) →
      (∀ r ∈ l, D r (amin r) ≤ 2500) →
      (∀ r ∈ l, ∀ r' ∈ l, amin r = amin r' → r = r') →
      (l.foldl (greedyAcceptStep D amin) (uR, uC, acc)).2.2 =
        acc ++ l.map (fun r => (r, amin r)) := by
intro l
induction l with
| nil => intro uR uC acc _ _ _ _ _; simp
| cons r l' ih =>
  intro uR uC acc hnd hur huc hgate hinj
  rw [List.nodup_cons] at hnd
  rw [List.foldl_cons, greedyAcceptStep_eq]
  rw [if_neg, if_neg]
  · rw [ih _ _ _ hnd.2 ?_ ?_ ?_ ?_]
    · simp
    · intro r' hr'
      rw [List.mem_append, List.mem_singleton]
      push_neg
      exact ⟨hur r' (List.mem_cons_of_mem _ hr'), fun hh => hnd.1 (hh ▸ hr')⟩
    · intro r' hr'
      rw [List.mem_append, List.mem_singleton]
      push_neg
      refine ⟨huc r' (List.mem_cons_of_mem _ hr'), ?_⟩
      intro hh
      exact hnd.1 ((hinj r' (List.mem_cons_of_mem _ hr') r (List.mem_cons_self _ _) hh) ▸ hr')
    · exact fun r' hr' => hgate r' (List.mem_cons_of_mem _ hr')
    · exact fun a ha b hb => hinj a (List.mem_cons_of_mem _ ha) b (List.mem_cons_of_mem _ hb)
  · exact Nat.not_lt.2 (hgate r (List.mem_cons_self _ _))
  · push_neg
    exact ⟨hur r (List.mem_cons_self _ _), huc r (List.mem_cons_self _ _)⟩

theorem mem_perRowMatches_of_free (D : Nat → Nat → Nat) (R C : Nat) (hC : 0 < C)
    (hgate : ∀ r, r < R → ∀ c, c < C → D r c ≤ 2500)
    (hinj : ∀ r, r < R → ∀ r', r' < R →
      argminIdx (D r) C = argminIdx (D r') C → r = r') :
    ∀ p, p ∈ perRowMatches D R C ↔ p.1 < R ∧ p.2 = argminIdx (D p.1) C := by
have hall := perRowFold_all D (fun r => argminIdx (D r) C)
  (sortedRowsBy (fun r => D r (argminIdx (D r) C)) R) [] [] []
  (sortedRowsBy_nodup _ _) (by simp) (by simp)
  (fun r hr => hgate r (mem_sortedRowsBy.1 hr) _ (argminIdx_lt _ hC))
  (fun a ha b hb => hinj a (mem_sortedRowsBy.1 ha) b (mem_sortedRowsBy.1 hb))
intro p
rw [show perRowMatches D R C =
    ((sortedRowsBy (fun r => D r (argminIdx (D r) C)) R).foldl
      (greedyAcceptStep D (fun r => argminIdx (D r) C)) ([], [], [])).2.2 from rfl, hall]
rw [List.nil_append, List.mem_map]
constructor
· rintro ⟨r, hr, he⟩
  rw [← he]
  exact ⟨mem_sortedRowsBy.1 hr, rfl⟩
· rintro ⟨h1, h2⟩
  refine ⟨p.1, mem_sortedRowsBy.2 h1, ?_⟩
  show (p.1, argminIdx (D p.1) C) = p
  rw [← h2]

theorem globalStep_eq (acc : List Nat × List Nat × List (Nat × Nat)) (p : Nat × Nat) :
    globalStep acc p =
      if p.1 ∈ acc.1 ∨ p.2 ∈ acc.2.1 then acc
      else (acc.1 ++ [p.1], acc.2.1 ++ [p.2], acc.2.2 ++ [(p.1, p.2)]) := by
obtain ⟨a, b, c⟩ := acc
rfl

theorem globalFold_char (D : Nat → Nat → Nat) (amin : Nat → Nat) (R C : Nat)
    (hinj : ∀ r, r < R → ∀ r', r' < R → amin r = amin r' → r = r')
    (hstrict : ∀ r, r < R → ∀ c, c < C → c ≠ amin r → D r (amin r) < D r c) :
    ∀ (cs : List (Nat × Nat)) (uR uC : List Nat) (acc : List (Nat × Nat)),
      cs.Pairwise (fun p q => D p.1 p.2 ≤ D q.1 q.2) →
      cs.Nodup →
      (∀ p ∈ cs, p.1 < R ∧ p.2 < C) →
      (∀ r, r < R → ¬ r ∈ uR → (r, amin r) ∈ cs) →
      (∀ r ∈ uR, r < R ∧ (r, amin r) ∉ cs) →
      (∀ c, c ∈ uC ↔ ∃ r ∈ uR, amin r = c) →
      (∀ p, p ∈ acc ↔ p.1 ∈ uR ∧ p.2 = amin p.1) →
      ∀ p, p ∈ (cs.foldl globalStep (uR, uC, acc)).2.2 ↔ p.1 < R ∧ p.2 = amin p.1 := by
intro cs
induction cs with
| nil =>
  intro uR uC acc _ _ _ hfree huR _ hacc p
  rw [show (List.foldl globalStep (uR, uC, acc) []).2.2 = acc from rfl, hacc]
  constructor
  · rintro ⟨h1, h2⟩
    exact ⟨(huR _ h1).1, h2⟩
  · rintro ⟨h1, h2⟩
    by_cases hm : p.1 ∈ uR
    · exact ⟨hm, h2⟩
    · exact absurd (hfree p.1 h1 hm) (List.not_mem_nil _)
| cons q cs' ih =>
  intro uR uC acc hpw hnd hmem hfree huR huC hacc p
  rw [List.pairwise_cons] at hpw
  rw [List.nodup_cons] at hnd
  obtain ⟨hq1, hq2⟩ := hmem q (List.mem_cons_self _ _)
  rw [List.foldl_cons, globalStep_eq]
  by_cases h₁ : q.1 ∈ uR ∨ q.2 ∈ uC
  · rw [if_pos h₁]
    refine ih uR uC acc hpw.2 hnd.2
      (fun p' hp' => hmem p' (List.mem_cons_of_mem _ hp')) ?_ ?_ huC hacc p
    · intro r hr hru
      have hin := hfree r hr hru
      rcases List.mem_cons.1 hin with h | h
      · exfalso
        rcases h₁ with h₂ | h₂
        · refine hru ?_
          rw [← h] at h₂
          exact h₂
        · obtain ⟨r'', hr'', he''⟩ := (huC q.2).1 h₂
          have hne : amin r ≠ q.2 := by
            intro hc
            have : r = r'' := hinj r hr r'' (huR r'' hr'').1 (hc.trans he''.symm)
            exact hru (this ▸ hr'')
          exact hne (congrArg Prod.snd h)
      · exact h
    · intro r hr
      exact ⟨(huR r hr).1, fun hh => (huR r hr).2 (List.mem_cons_of_mem _ hh)⟩
  · rw [if_neg h₁]
    push_neg at h₁
    have hqamin : q.2 = amin q.1 := by
      by_contra hc
      have hstr := hstrict q.1 hq1 q.2 hq2 hc
      have hin : (q.1, amin q.1) ∈ q :: cs' := hfree q.1 hq1 h₁.1
      have hne : (q.1, amin q.1) ≠ q := by
        intro hh
        exact hc (congrArg Prod.snd hh).symm
      have hin' : (q.1, amin q.1) ∈ cs' := by
        rcases List.mem_cons.1 hin with h | h
        · exact absurd h hne
        · exact h
      have := hpw.1 _ hin'
      simp only at this
      omega
    refine (ih (uR ++ [q.1]) (uC ++ [q.2]) (acc ++ [q]) hpw.2 hnd.2
      (fun p' hp' => hmem p' (List.mem_cons_of_mem _ hp')) ?_ ?_ ?_ ?_ p).trans
      (Iff.refl _)
    · intro r hr hru
      rw [List.mem_append, List.mem_singleton] at hru
      push_neg at hru
      have hin := hfree r hr hru.1
      rcases List.mem_cons.1 hin with h | h
      · exfalso
        exact hru.2 (congrArg Prod.fst h)
      · exact h
    · intro r hr
      rcases List.mem_append.1 hr with h | h
      · exact ⟨(huR r h).1, fun hh => (huR r h).2 (List.mem_cons_of_mem _ hh)⟩
      · rw [List.mem_singleton] at h
        subst h
        refine ⟨hq1, ?_⟩
        rw [← hqamin]
        intro hh
        exact hnd.1 (by rw [show (q.1, q.2) = q from rfl] at hh; exact hh)
    · intro c
      rw [List.mem_append, List.mem_singleton, huC]
      constructor
      · rintro (⟨r, hr, he⟩ | he)
        · exact ⟨r, List.mem_append_left _ hr, he⟩
        · exact ⟨q.1, List.mem_append_right _ (List.mem_singleton.2 rfl), by rw [← hqamin, he]⟩
      · rintro ⟨r, hr, he⟩
        rcases List.mem_append.1 hr with h | h
        · exact Or.inl ⟨r, h, he⟩
        · rw [List.mem_singleton] at h
          subst h
          exact Or.inr (by rw [← he, hqamin])
    · intro p'
      rw [List.mem_append, List.mem_singleton, hacc, List.mem_append, List.mem_singleton]
      constructor
      · rintro (⟨h1, h2⟩ | he)
        · exact ⟨Or.inl h1, h2⟩
        · subst he
          exact ⟨Or.inr rfl, hqamin⟩
      · rintro ⟨h1 | h1, h2⟩
        · exact Or.inl ⟨h1, h2⟩
        · refine Or.inr ?_
          have : p' = (p'.1, p'.2) := rfl
          rw [this, h1, h2, h1, ← hqamin]

theorem mem_globalGreedyMatches (D : Nat → Nat → Nat) (R C : Nat) (hC : 0 < C)
    (hinj : ∀ r, r < R → ∀ r', r' < R →
      argminIdx (D r) C = argminIdx (D r') C → r = r')
    (hstrict : ∀ r, r < R → ∀ c, c < C → c ≠ argminIdx (D r) C →
      D r (argminIdx (D r) C) < D r c) :
    ∀ p, p ∈ globalGreedyMatches D R C ↔ p.1 < R ∧ p.2 = argminIdx (D p.1) C := by
haveI htot : IsTotal (Nat × Nat) (fun p q => D p.1 p.2 ≤ D q.1 q.2) :=
  ⟨fun a b => Nat.le_total _ _⟩
haveI htr : IsTrans (Nat × Nat) (fun p q => D p.1 p.2 ≤ D q.1 q.2) :=
  ⟨fun a b c => Nat.le_trans⟩
have hperm := List.perm_insertionSort (fun p q : Nat × Nat => D p.1 p.2 ≤ D q.1 q.2)
  (candPairs R C)
have hcnd : (candPairs R C).Nodup := (List.nodup_range R).product (List.nodup_range C)
refine globalFold_char D (fun r => argminIdx (D r) C) R C hinj hstrict _ [] [] []
  (List.sorted_insertionSort _ _) (hperm.nodup_iff.2 hcnd) ?_ ?_ ?_ ?_ ?_
· intro p hp
  have hp' : p ∈ candPairs R C := hperm.mem_iff.1 hp
  rw [show p = (p.1, p.2) from rfl, candPairs] at hp'
  obtain ⟨h1, h2⟩ := List.pair_mem_product.1 hp'
  exact ⟨List.mem_range.1 h1, List.mem_range.1 h2⟩
· intro r hr _
  refine hperm.mem_iff.2 ?_
  rw [candPairs]
  exact List.pair_mem_product.2 ⟨List.mem_range.2 hr, List.mem_range.2 (argminIdx_lt _ hC)⟩
· intro r hr
  exact absurd hr (List.not_mem_nil _)
· intro c
  simp
· intro p
  simp

end FaceTracker

/-! ### Orchestrator state lemmas -/

namespace FaceTrackingSystem

theorem recogStep_sets (env : FrameEnv) (hd : Bool) (st : SysState) (p : Nat × Track) :
    st.tracked_entries ⊆ (recogStep env hd st p).tracked_entries ∧
    (recogStep env hd st p).tracked_exits = st.tracked_exits ∧
    (∀ f b, (f, EventKind.entry, b) ∈ (recogStep env hd st p).events →
      (f, EventKind.entry, b) ∈ st.events ∨ f ∈ (recogStep env hd st p).tracked_entries) := by
rw [recogStep]
by_cases hc : p.2.face_id = none ∧ hd
· rw [if_pos hc]
  cases hemb : env.embedOf p.2.bbox with
  | none => exact ⟨List.Subset.refl _, rfl, fun f b hf => Or.inl hf⟩
  | some emb =>
    cases hm : env.matchOf emb st.known with
    | some mid =>
      simp only [hm]
      by_cases hmem : mid ∈ st.tracked_entries
      · rw [if_pos hmem]
        exact ⟨List.Subset.refl _, rfl, fun f b hf => Or.inl hf⟩
      · rw [if_neg hmem]
        refine ⟨List.subset_append_left _ _, rfl, ?_⟩
        intro f b hf
        rcases List.mem_append.1 hf with h | h
        · exact Or.inl h
        · rw [List.mem_singleton] at h
          refine Or.inr ?_
          rw [show f = mid from congrArg (fun q => q.1) h]
          exact List.mem_append_right _ (List.mem_singleton.2 rfl)
    | none =>
      simp only [hm]
      by_cases hmem : mkFaceId st.next_face_id ∈ st.tracked_entries
      · rw [if_pos hmem]
        exact ⟨List.Subset.refl _, rfl, fun f b hf => Or.inl hf⟩
      · rw [if_neg hmem]
        refine ⟨List.subset_append_left _ _, rfl, ?_⟩
        intro f b hf
        rcases List.mem_append.1 hf with h | h
        · exact Or.inl h
        · rw [List.mem_singleton] at h
          refine Or.inr ?_
          rw [show f = mkFaceId st.next_face_id from congrArg (fun q => q.1) h]
          exact List.mem_append_right _ (List.mem_singleton.2 rfl)
· rw [if_neg hc]
  exact ⟨List.Subset.refl _, rfl, fun f b hf => Or.inl hf⟩

theorem recogFold_sets (env : FrameEnv) (hd : Bool) :
    ∀ (l : List (Nat × Track)) (st : SysState),
      st.tracked_entries ⊆ (l.foldl (recogStep env hd) st).tracked_entries ∧
      (l.foldl (recogStep env hd) st).tracked_exits = st.tracked_exits ∧
      (∀ f b, (f, EventKind.entry, b) ∈ (l.foldl (recogStep env hd) st).events →
        (f, EventKind.entry, b) ∈ st.events ∨
          f ∈ (l.foldl (recogStep env hd) st).tracked_entries) := by
intro l
induction l with
| nil => intro st; exact ⟨List.Subset.refl _, rfl, fun f b hf => Or.inl hf⟩
| cons p l' ih =>
  intro st
  obtain ⟨s1, s2, s3⟩ := recogStep_sets env hd st p
  obtain ⟨i1, i2, i3⟩ := ih (recogStep env hd st p)
  rw [List.foldl_cons]
  refine ⟨s1.trans i1, i2.trans s2, ?_⟩
  intro f b hf
  rcases i3 f b hf with h | h
  · rcases s3 f b h with h' | h'
    · exact Or.inl h'
    · exact Or.inr (i1 h')
  · exact Or.inr h

theorem exitStep_sets (env : FrameEnv) (st : SysState) (f : String) :
    (exitStep env st f).tracked_entries = st.tracked_entries ∧
    st.tracked_exits ⊆ (exitStep env st f).tracked_exits ∧
    (∀ x ∈ (exitStep env st f).tracked_exits, x ∈ st.tracked_exits ∨ x = f) ∧
    (∀ g b, (g, EventKind.entry, b) ∈ (exitStep env st f).events →
      (g, EventKind.entry, b) ∈ st.events) := by
rw [exitStep]
cases hfind : st.tracker.objects.find? (fun q => q.2.face_id = some f) with
| none =>
  exact ⟨rfl, List.Subset.refl _, fun x hx => Or.inl hx, fun g b hg => hg⟩
| some q =>
  refine ⟨rfl, List.subset_append_left _ _, ?_, ?_⟩
  · intro x hx
    rcases List.mem_append.1 hx with h | h
    · exact Or.inl h
    · exact Or.inr (List.mem_singleton.1 h)
  · intro g b hg
    rcases List.mem_append.1 hg with h | h
    · exact h
    · rw [List.mem_singleton] at h
      exact absurd (congrArg (fun q => q.2.1) h) (by simp)

theorem exitFold_sets (env : FrameEnv) :
    ∀ (l : List String) (st : SysState),
      (l.foldl (exitStep env) st).tracked_entries = st.tracked_entries ∧
      st.tracked_exits ⊆ (l.foldl (exitStep env) st).tracked_exits ∧
      (∀ x ∈ (l.foldl (exitStep env) st).tracked_exits,
        x ∈ st.tracked_exits ∨ x ∈ l) ∧
      (∀ g b, (g, EventKind.entry, b) ∈ (l.foldl (exitStep env) st).events →
        (g, EventKind.entry, b) ∈ st.events) := by
intro l
induction l with
| nil => intro st; exact ⟨rfl, List.Subset.refl _, fun x hx => Or.inl hx, fun g b hg => hg⟩
| cons f l' ih =>
  intro st
  obtain ⟨s1, s2, s3, s4⟩ := exitStep_sets env st f
  obtain ⟨i1, i2, i3, i4⟩ := ih (exitStep env st f)
  rw [List.foldl_cons]
  refine ⟨i1.trans s1, s2.trans i2, ?_, fun g b hg => s4 g b (i4 g b hg)⟩
  intro x hx
  rcases i3 x hx with h | h
  · rcases s3 x h with h' | h'
    · exact Or.inl h'
    · exact Or.inr (h' ▸ List.mem_cons_self _ _)
  · exact Or.inr (List.mem_cons_of_mem _ h)

/-- Entered/exited bookkeeping of the recognition stage followed by the
exit stage, for any starting state. -/
theorem stage_sets (env : FrameEnv) (hd : Bool) (objs : List (Nat × Track)) (s₁ : SysState) :
    s₁.tracked_entries ⊆
      (((objs.foldl (recogStep env hd) s₁).tracked_entries.filter fun f =>
          f ∉ currentFaceIds (objs.foldl (recogStep env hd) s₁).tracker.objects ∧
          f ∉ (objs.foldl (recogStep env hd) s₁).tracked_exits).foldl (exitStep env)
        (objs.foldl (recogStep env hd) s₁)).tracked_entries ∧
    s₁.tracked_exits ⊆
      (((objs.foldl (recogStep env hd) s₁).tracked_entries.filter fun f =>
          f ∉ currentFaceIds (objs.foldl (recogStep env hd) s₁).tracker.objects ∧
          f ∉ (objs.foldl (recogStep env hd) s₁).tracked_exits).foldl (exitStep env)
        (objs.foldl (recogStep env hd) s₁)).tracked_exits ∧
    (s₁.tracked_exits ⊆ s₁.tracked_entries →
      (((objs.foldl (recogStep env hd) s₁).tracked_entries.filter fun f =>
          f ∉ currentFaceIds (objs.foldl (recogStep env hd) s₁).tracker.objects ∧
          f ∉ (objs.foldl (recogStep env hd) s₁).tracked_exits).foldl (exitStep env)
        (objs.foldl (recogStep env hd) s₁)).tracked_exits ⊆
      (((objs.foldl (recogStep env hd) s₁).tracked_entries.filter fun f =>
          f ∉ currentFaceIds (objs.foldl (recogStep env hd) s₁).tracker.objects ∧
          f ∉ (objs.foldl (recogStep env hd) s₁).tracked_exits).foldl (exitStep env)
        (objs.foldl (recogStep env hd) s₁)).tracked_entries) ∧
    (∀ f b, (f, EventKind.entry, b) ∈
        (((objs.foldl (recogStep env hd) s₁).tracked_entries.filter fun f =>
            f ∉ currentFaceIds (objs.foldl (recogStep env hd) s₁).tracker.objects ∧
            f ∉ (objs.foldl (recogStep env hd) s₁).tracked_exits).foldl (exitStep env)
          (objs.foldl (recogStep env hd) s₁)).events →
      (f, EventKind.entry, b) ∈ s₁.events ∨
        f ∈ (((objs.foldl (recogStep env hd) s₁).tracked_entries.filter fun f =>
            f ∉ currentFaceIds (objs.foldl (recogStep env hd) s₁).tracker.objects ∧
            f ∉ (objs.foldl (recogStep env hd) s₁).tracked_exits).foldl (exitStep env)
          (objs.foldl (recogStep env hd) s₁)).tracked_entries) := by
obtain ⟨r1, r2, r3⟩ := recogFold_sets env hd objs s₁
obtain ⟨e1, e2, e3, e4⟩ := exitFold_sets env
  ((objs.foldl (recogStep env hd) s₁).tracked_entries.filter fun f =>
    f ∉ currentFaceIds (objs.foldl (recogStep env hd) s₁).tracker.objects ∧
    f ∉ (objs.foldl (recogStep env hd) s₁).tracked_exits)
  (objs.foldl (recogStep env hd) s₁)
refine ⟨?_, ?_, ?_, ?_⟩
· rw [e1]
  exact r1
· nth_rewrite 1 [r2] at e2
  exact e2
· intro hsub
  intro x hx
  rcases e3 x hx with h | h
  · rw [r2] at h
    rw [e1]
    exact r1 (hsub h)
  · rw [e1]
    exact (List.mem_filter.1 h).1
· intro f b hf
  have h₁ := e4 f b hf
  rcases r3 f b h₁ with h | h
  · exact Or.inl h
  · rw [← e1] at h
    exact Or.inr h

/-- The entered/exited bookkeeping of one `process_frame` call: both sets
only grow, and the subset invariant `exited ⊆ entered` is preserved. -/
theorem process_frame_sets (env : FrameEnv) (s : SysState) :
    s.tracked_entries ⊆ (process_frame env s).tracked_entries ∧
    s.tracked_exits ⊆ (process_frame env s).tracked_exits ∧
    (s.tracked_exits ⊆ s.tracked_entries →
      (process_frame env s).tracked_exits ⊆ (process_frame env s).tracked_entries) ∧
    (∀ f b, (f, EventKind.entry, b) ∈ (process_frame env s).events →
      (f, EventKind.entry, b) ∈ s.events ∨ f ∈ (process_frame env s).tracked_entries) := by
exact stage_sets env
  (decide ((if (s.frame_count + 1) % (s.skip_frames + 1) = 0 then env.rawDetections
    else []) ≠ []))
  (FaceTracker.update s.tracker (if (s.frame_count + 1) % (s.skip_frames + 1) = 0 then
    env.rawDetections else [])).objects
  { s with frame_count := s.frame_count + 1,
           tracker := FaceTracker.update s.tracker
             (if (s.frame_count + 1) % (s.skip_frames + 1) = 0 then env.rawDetections
              else []) }

end FaceTrackingSystem

namespace FaceTracker

theorem register_inv (s : TrackerState) (c : Nat × Nat) (b : Nat × Nat × Nat × Nat)
    (hinv : TrackerInv s) : TrackerInv (register s c b) := by
obtain ⟨hkeq, hnodup, hbound⟩ := hinv
have hfo : s.next_object_id ∉ Dict.keys s.objects := fun hc => lt_irrefl _ (hbound _ hc)
have hfd : s.next_object_id ∉ Dict.keys s.disappeared := fun hc =>
  lt_irrefl _ (hbound _ (by rw [hkeq]; exact hc))
have ho : (register s c b).objects = s.objects ++ [(s.next_object_id, ⟨c, b, none⟩)] :=
  Dict.set_eq_append hfo _
have hd : (register s c b).disappeared = s.disappeared ++ [(s.next_object_id, 0)] :=
  Dict.set_eq_append hfd _
refine ⟨?_, ?_, ?_⟩
· rw [ho, hd, Dict.keys_append, Dict.keys_append, hkeq]
  rfl
· rw [ho, Dict.keys_append]
  exact List.Nodup.append hnodup (List.nodup_singleton _) (by
    intro x hx hx'
    rw [show Dict.keys [(s.next_object_id, (⟨c, b, none⟩ : Track))] = [s.next_object_id]
      from rfl, List.mem_singleton] at hx'
    rw [hx'] at hx
    exact hfo hx)
· intro k hk
  rw [ho, Dict.keys_append] at hk
  rcases List.mem_append.1 hk with h | h
  · exact lt_trans (hbound k h) (Nat.lt_succ_self _)
  · rw [show Dict.keys [(s.next_object_id, (⟨c, b, none⟩ : Track))] = [s.next_object_id]
      from rfl, List.mem_singleton] at h
    rw [h]
    exact Nat.lt_succ_self _

theorem deregister_inv (s : TrackerState) (oid : Nat) (hinv : TrackerInv s) :
    TrackerInv (deregister s oid) := by
obtain ⟨hkeq, hnodup, hbound⟩ := hinv
refine ⟨Dict.keys_erase_congr hkeq oid, Dict.nodup_keys_erase oid hnodup, ?_⟩
intro k hk
rw [show (deregister s oid).objects = Dict.erase s.objects oid from rfl,
  Dict.keys_erase] at hk
exact hbound k (List.mem_of_mem_erase hk)

theorem runUpdates_inv_log :
    ∀ (dss : List (List Detection)) (s : TrackerState), TrackerInv s → IdLog s →
      TrackerInv (runUpdates s dss) ∧ IdLog (runUpdates s dss) := by
intro dss
induction dss with
| nil => intro s hinv hlog; exact ⟨hinv, hlog⟩
| cons ds dss' ih =>
  intro s hinv hlog
  exact ih (update s ds) (update_inv s ds hinv) (update_IdLog s ds hinv hlog)

theorem init_inv (m : Nat) : TrackerInv (init m) :=
⟨rfl, List.nodup_nil, fun k hk => absurd hk (List.not_mem_nil _)⟩

theorem init_IdLog (m : Nat) : IdLog (init m) :=
⟨fun a ha => absurd ha (List.not_mem_nil _), List.chain'_nil⟩

end FaceTracker

namespace FaceTrackingSystem

theorem runFrames_subset :
    ∀ (envs : List FrameEnv) (s : SysState), s.tracked_exits ⊆ s.tracked_entries →
      (runFrames s envs).tracked_exits ⊆ (runFrames s envs).tracked_entries := by
intro envs
induction envs with
| nil => intro s h; exact h
| cons env envs' ih =>
  intro s h
  exact ih (process_frame env s) ((process_frame_sets env s).2.2.1 h)

end FaceTrackingSystem

/-! ### The claims -/

/-- C1. The spec says an identity that has entered, has not exited, and is
absent from the current face-id set triggers exactly one exit event and is
marked exited; in the code the exit branch scans the present tracked
objects for one still carrying the identity, which cannot exist for an
absent identity, so no exit event is ever emitted and the exited set never
grows.  Concrete run (skip 0, max_disappeared 1): a face enters on frame 1
and is absent on frames 2 and 3 (max_disappeared + 1 consecutive absent
frames); at the end the identity is entered, carried by no tracked object,
yet the exited set is empty and the event log holds no exit event. -/
theorem C1_no_exit_event :
    (FaceTrackingSystem.runFrames (FaceTrackingSystem.init 0 1 [])
      [envDet true, envNone, envNone]).tracked_entries = ["FACE_0001"] ∧
    FaceTrackingSystem.currentFaceIds
      (FaceTrackingSystem.runFrames (FaceTrackingSystem.init 0 1 [])
        [envDet true, envNone, envNone]).tracker.objects = [] ∧
    (FaceTrackingSystem.runFrames (FaceTrackingSystem.init 0 1 [])
      [envDet true, envNone, envNone]).tracked_exits = [] ∧
    (FaceTrackingSystem.runFrames (FaceTrackingSystem.init 0 1 [])
      [envDet true, envNone, envNone]).events =
      [("FACE_0001", EventKind.entry, true)] := by
decide

/-- C2 (amended). The code appends the entry event and the entered mark
together, ignoring the Bool `log_event` returns: whenever an entry event
for `f` is newly logged during a `process_frame` call — successful or
failed — `f` is in the entered set afterwards.  (The original claim, that
the mark is set only on a successful persistence call, is refuted by
`C2_counterexample`.) -/
theorem C2_amended (env : FrameEnv) (s : SysState) (f : String) (b : Bool)
    (h : (f, EventKind.entry, b) ∈ (FaceTrackingSystem.process_frame env s).events)
    (h₀ : (f, EventKind.entry, b) ∉ s.events) :
    f ∈ (FaceTrackingSystem.process_frame env s).tracked_entries := by
rcases (FaceTrackingSystem.process_frame_sets env s).2.2.2 f b h with hc | hm
· exact absurd hc h₀
· exact hm

/-- C2, counterexample to the original claim: with `log_event` reporting
failure, the entry event is logged with result `false` and the identity is
nonetheless added to the entered set (so no retry can ever occur). -/
theorem C2_counterexample :
    ("FACE_0001", EventKind.entry, false) ∈
      (FaceTrackingSystem.process_frame (envDet false)
        (FaceTrackingSystem.init 0 1 [])).events ∧
    "FACE_0001" ∈
      (FaceTrackingSystem.process_frame (envDet false)
        (FaceTrackingSystem.init 0 1 [])).tracked_entries := by
decide

theorem C2_witness :
    "FACE_0001" ∈
      (FaceTrackingSystem.process_frame (envDet false)
        (FaceTrackingSystem.init 0 1 [])).tracked_entries :=
C2_amended (envDet false) (FaceTrackingSystem.init 0 1 []) "FACE_0001" false
  (by decide) (by decide)

/-- C3. With existing tracks and a non-empty detection list, `update`
performs greedy per-row nearest-centroid matching: every accepted pair is
in range, takes the row argmin column, and passes the 50 px gate (squared:
2500); rows are processed in ascending order of row-minimum distance;
matched tracks get the detection centroid and bbox with counter reset to 0;
unmatched rows age (removed past `max_disappeared`, kept with counter + 1
otherwise); each unmatched column becomes a brand-new track; and a
detection farther than 50 px from every track centroid is never matched. -/
theorem C3_greedy_matching (s : TrackerState) (dets : List Detection)
    (hd : ¬ dets = []) (ho : ¬ s.objects = []) (hinv : TrackerInv s) :
    (∀ p ∈ trackMatches s dets,
      p.1 < s.objects.length ∧ p.2 < dets.length ∧ p.2 = trackAmin s dets p.1 ∧
      trackD s dets p.1 p.2 ≤ 2500) ∧
    ((trackMatches s dets).map Prod.fst).Pairwise
      (fun a b => trackRowmin s dets a ≤ trackRowmin s dets b) ∧
    (∀ p ∈ trackMatches s dets,
      Dict.lookup (FaceTracker.update s dets).objects ((Dict.keys s.objects).getD p.1 0) =
        (Dict.lookup s.objects ((Dict.keys s.objects).getD p.1 0)).map
          (fun t => { t with centroid := (detCentroids dets).getD p.2 (0, 0),
                             bbox := (detBoxes dets).getD p.2 (0, 0, 0, 0) }) ∧
      Dict.lookup (FaceTracker.update s dets).disappeared
        ((Dict.keys s.objects).getD p.1 0) = some 0) ∧
    (∀ r, r < s.objects.length → r ∉ (trackMatches s dets).map Prod.fst →
      (s.max_disappeared < cnt s ((Dict.keys s.objects).getD r 0) + 1 →
        Dict.lookup (FaceTracker.update s dets).objects
          ((Dict.keys s.objects).getD r 0) = none ∧
        Dict.lookup (FaceTracker.update s dets).disappeared
          ((Dict.keys s.objects).getD r 0) = none) ∧
      (¬ s.max_disappeared < cnt s ((Dict.keys s.objects).getD r 0) + 1 →
        Dict.lookup (FaceTracker.update s dets).objects
          ((Dict.keys s.objects).getD r 0) =
          Dict.lookup s.objects ((Dict.keys s.objects).getD r 0) ∧
        Dict.lookup (FaceTracker.update s dets).disappeared
          ((Dict.keys s.objects).getD r 0) =
          some (cnt s ((Dict.keys s.objects).getD r 0) + 1))) ∧
    (∀ c, c < dets.length → c ∉ (trackMatches s dets).map Prod.snd →
      ∃ oid, s.next_object_id ≤ oid ∧
        Dict.lookup (FaceTracker.update s dets).objects oid =
          some ⟨(detCentroids dets).getD c (0, 0), (detBoxes dets).getD c (0, 0, 0, 0),
            none⟩ ∧
        Dict.lookup (FaceTracker.update s dets).disappeared oid = some 0) ∧
    (∀ c, c < dets.length → (∀ r, r < s.objects.length → 2500 < trackD s dets r c) →
      c ∉ (trackMatches s dets).map Prod.snd) := by
obtain ⟨h1, h2, _, _, _, h6, h7, h8, _, _⟩ := FaceTracker.update_match_spec s dets hd ho hinv
refine ⟨h1, h2, h6, h7, h8, ?_⟩
intro c hc hfar hmem
obtain ⟨p, hp, hpc⟩ := List.mem_map.1 hmem
obtain ⟨hr, _, _, hle⟩ := h1 p hp
rw [hpc] at hle
exact absurd (hfar p.1 hr) (Nat.not_lt.2 hle)

theorem C3_witness :
    1 ∉ (trackMatches (FaceTracker.update (FaceTracker.init 30) [ptDet 0 0, ptDet 100 100])
      [ptDet 2 1, ptDet 500 500]).map Prod.snd :=
(C3_greedy_matching (FaceTracker.update (FaceTracker.init 30) [ptDet 0 0, ptDet 100 100])
  [ptDet 2 1, ptDet 500 500] (by decide) (by decide) (by decide)).2.2.2.2.2 1
  (by decide) (by decide)

/-- C4 (amended). The per-row greedy of the source and the global
distance-sorted greedy of the spec agree whenever every distance passes
the gate, distinct rows have distinct argmin columns, and each row attains
its minimum at a unique column; without those side conditions they differ
(`C4_counterexample`): both loops then accept exactly the pairs
`(r, argmin of row r)` for `r < R`. -/
theorem C4_amended (D : Nat → Nat → Nat) (R C : Nat) (hC : 0 < C)
    (hgate : ∀ r, r < R → ∀ c, c < C → D r c ≤ 2500)
    (hinj : ∀ r, r < R → ∀ r', r' < R →
      FaceTracker.argminIdx (D r) C = FaceTracker.argminIdx (D r') C → r = r')
    (hstrict : ∀ r, r < R → ∀ c, c < C → c ≠ FaceTracker.argminIdx (D r) C →
      D r (FaceTracker.argminIdx (D r) C) < D r c) :
    ∀ p, p ∈ FaceTracker.perRowMatches D R C ↔ p ∈ globalGreedyMatches D R C := by
intro p
rw [FaceTracker.mem_perRowMatches_of_free D R C hC hgate hinj p,
  FaceTracker.mem_globalGreedyMatches D R C hC hinj hstrict p]

/-- C4, counterexample to the unconditional claim: two tracks at `(0,0)`
and `(0,3)`, detections at `(0,1)` and `(4,0)` — every distance passes the
gate, both rows prefer column 0; the global greedy matches `(1,1)` after
column 0 is taken, the per-row greedy leaves row 1 unmatched. -/
theorem C4_counterexample :
    (1, 1) ∈ globalGreedyMatches cexD 2 2 ∧
    (1, 1) ∉ FaceTracker.perRowMatches cexD 2 2 ∧
    (∀ r, r < 2 → ∀ c, c < 2 → cexD r c ≤ 2500) := by
decide

theorem C4_witness :
    ((0, 0) ∈ FaceTracker.perRowMatches wexD 2 2 ↔
      (0, 0) ∈ globalGreedyMatches wexD 2 2) :=
C4_amended wexD 2 2 (by decide) (by decide) (by decide) (by decide) (0, 0)

/-- C5. Over any sequence of `update` calls starting from a fresh tracker,
the chronological log of ids handed out by `register` is strictly
increasing — in particular no id, including that of a removed track, is
ever assigned twice. -/
theorem C5_ids_strictly_increasing (m : Nat) (dss : List (List Detection)) :
    ((runUpdates (FaceTracker.init m) dss).assigned).Pairwise (· < ·) ∧
    ((runUpdates (FaceTracker.init m) dss).assigned).Nodup := by
have h := FaceTracker.runUpdates_inv_log dss (FaceTracker.init m)
  (FaceTracker.init_inv m) (FaceTracker.init_IdLog m)
have hp : ((runUpdates (FaceTracker.init m) dss).assigned).Pairwise (· < ·) :=
  List.chain'_iff_pairwise.1 h.2.2
exact ⟨hp, hp.imp (fun hab => Nat.ne_of_lt hab)⟩

/-- C6. At every prefix of a run the exited set is a subset of the entered
set, and processing one more frame only extends both sets. -/
theorem C6_entry_exit_invariant (skip maxDis : Nat) (known0 : List (String × Nat))
    (envs : List FrameEnv) (env : FrameEnv) :
    (FaceTrackingSystem.runFrames (FaceTrackingSystem.init skip maxDis known0)
      envs).tracked_exits ⊆
      (FaceTrackingSystem.runFrames (FaceTrackingSystem.init skip maxDis known0)
        envs).tracked_entries ∧
    (FaceTrackingSystem.runFrames (FaceTrackingSystem.init skip maxDis known0)
      envs).tracked_entries ⊆
      (FaceTrackingSystem.runFrames (FaceTrackingSystem.init skip maxDis known0)
        (envs ++ [env])).tracked_entries ∧
    (FaceTrackingSystem.runFrames (FaceTrackingSystem.init skip maxDis known0)
      envs).tracked_exits ⊆
      (FaceTrackingSystem.runFrames (FaceTrackingSystem.init skip maxDis known0)
        (envs ++ [env])).tracked_exits := by
have hbase : (FaceTrackingSystem.init skip maxDis known0).tracked_exits ⊆
    (FaceTrackingSystem.init skip maxDis known0).tracked_entries := fun x hx => hx
have hstep : FaceTrackingSystem.runFrames (FaceTrackingSystem.init skip maxDis known0)
    (envs ++ [env]) =
    FaceTrackingSystem.process_frame env
      (FaceTrackingSystem.runFrames (FaceTrackingSystem.init skip maxDis known0) envs) := by
  simp only [FaceTrackingSystem.runFrames, List.foldl_append, List.foldl_cons,
    List.foldl_nil]
refine ⟨FaceTrackingSystem.runFrames_subset envs _ hbase, ?_, ?_⟩
· rw [hstep]
  exact (FaceTrackingSystem.process_frame_sets env _).1
· rw [hstep]
  exact (FaceTrackingSystem.process_frame_sets env _).2.1

/-- C7. An empty-detections `update` increments every surviving counter by
1, keeps exactly the tracks whose incremented counter is at most
`max_disappeared` (with their data untouched), and `N` consecutive empty
updates with `max_disappeared < N` remove every originally-present
track. -/
theorem C7_empty_update (s : TrackerState) (hinv : TrackerInv s) :
    (∀ k, k ∈ Dict.keys (FaceTracker.update s []).objects ↔
      k ∈ Dict.keys s.objects ∧ cnt s k + 1 ≤ s.max_disappeared) ∧
    (∀ k ∈ Dict.keys (FaceTracker.update s []).objects,
      Dict.lookup (FaceTracker.update s []).disappeared k = some (cnt s k + 1) ∧
      Dict.lookup (FaceTracker.update s []).objects k = Dict.lookup s.objects k) ∧
    (∀ N, s.max_disappeared < N → ∀ k, k ∈ Dict.keys s.objects →
      k ∉ Dict.keys (emptyUpdates N s).objects) := by
obtain ⟨_, _, _, _, h5, h6⟩ := FaceTracker.update_empty_spec s hinv
refine ⟨h5, h6, ?_⟩
intro N hN k _ hc
obtain ⟨_, _, hle⟩ := (FaceTracker.emptyUpdates_spec s hinv N).2.2 k hc
have hb := hle (by omega)
omega

theorem C7_witness :
    0 ∉ Dict.keys (emptyUpdates 3
      (FaceTracker.update (FaceTracker.init 2) [ptDet 10 10])).objects ∧
    0 ∈ Dict.keys (FaceTracker.update (FaceTracker.init 2) [ptDet 10 10]).objects :=
⟨(C7_empty_update (FaceTracker.update (FaceTracker.init 2) [ptDet 10 10])
    (by decide)).2.2 3 (by decide) 0 (by decide), by decide⟩

/-- C8 (amended). `assign_face_id` on a missing track id raises `KeyError`
(result `false`) with `objects` and `disappeared` untouched but
`face_id_map` already mutated — it is not the no-op the spec claims
(`C8_counterexample`); on a present id it attaches the identity to the
track and to the map. -/
theorem C8_amended (s : TrackerState) (oid : Nat) (fid : String) :
    (Dict.lookup s.objects oid = none →
      (FaceTracker.assign_face_id s oid fid).2 = false ∧
      (FaceTracker.assign_face_id s oid fid).1.objects = s.objects ∧
      (FaceTracker.assign_face_id s oid fid).1.disappeared = s.disappeared ∧
      (FaceTracker.assign_face_id s oid fid).1.face_id_map =
        Dict.set s.face_id_map oid fid) ∧
    (∀ t, Dict.lookup s.objects oid = some t →
      (FaceTracker.assign_face_id s oid fid).2 = true ∧
      Dict.lookup (FaceTracker.assign_face_id s oid fid).1.face_id_map oid = some fid ∧
      Dict.lookup (FaceTracker.assign_face_id s oid fid).1.objects oid =
        some { t with face_id := some fid }) := by
constructor
· intro h
  have he : FaceTracker.assign_face_id s oid fid =
      ({ s with face_id_map := Dict.set s.face_id_map oid fid }, false) := by
    simp only [FaceTracker.assign_face_id, h]
  rw [he]
  exact ⟨rfl, rfl, rfl, rfl⟩
· intro t h
  have he : FaceTracker.assign_face_id s oid fid =
      ({ s with face_id_map := Dict.set s.face_id_map oid fid,
                objects := Dict.set s.objects oid { t with face_id := some fid } },
       true) := by
    simp only [FaceTracker.assign_face_id, h]
  rw [he]
  exact ⟨rfl, Dict.lookup_set_self s.face_id_map oid fid,
    Dict.lookup_set_self s.objects oid _⟩

/-- C8, counterexample to the original claim: on a fresh tracker (track 0
absent) the call reports the error, yet the state is not unchanged —
`face_id_map` now holds the binding. -/
theorem C8_counterexample :
    (FaceTracker.assign_face_id (FaceTracker.init 30) 0 "X").2 = false ∧
    ¬ (FaceTracker.assign_face_id (FaceTracker.init 30) 0 "X").1 =
      FaceTracker.init 30 ∧
    (FaceTracker.assign_face_id (FaceTracker.init 30) 0 "X").1.face_id_map =
      [(0, "X")] := by
decide

theorem C8_witness :
    (FaceTracker.assign_face_id (FaceTracker.init 30) 1 "B").2 = false ∧
    Dict.lookup (FaceTracker.assign_face_id
      (FaceTracker.update (FaceTracker.init 30) [ptDet 1 2]) 0 "A").1.objects 0 =
      some ⟨(1, 2), (1, 2, 1, 2), some "A"⟩ :=
⟨((C8_amended (FaceTracker.init 30) 1 "B").1 (by decide)).1,
 ((C8_amended (FaceTracker.update (FaceTracker.init 30) [ptDet 1 2]) 0 "A").2
    ⟨(1, 2), (1, 2, 1, 2), none⟩ (by decide)).2.2⟩

/-- C9. On a tracker with no existing tracks and a non-empty detection
list, `update` registers every detection as a new track whose centroid is
the bounding-box center and whose disappearance counter is 0. -/
theorem C9_cold_start (s : TrackerState) (dets : List Detection)
    (hd : ¬ dets = []) (ho : s.objects = []) (hinv : TrackerInv s) :
    (FaceTracker.update s dets).objects = (List.range dets.length).map
      (fun i => (s.next_object_id + i,
        ⟨bboxCenter (dets.getD i ⟨(0, 0, 0, 0)⟩).bbox,
         (dets.getD i ⟨(0, 0, 0, 0)⟩).bbox, none⟩)) ∧
    (FaceTracker.update s dets).disappeared = (List.range dets.length).map
      (fun i => (s.next_object_id + i, 0)) := by
exact ⟨(FaceTracker.update_cold_spec s dets hd ho hinv).1,
  (FaceTracker.update_cold_spec s dets hd ho hinv).2.1⟩

theorem C9_witness :
    (FaceTracker.update (FaceTracker.init 30) [ptDet 3 4]).objects =
      [(0, ⟨(3, 4), (3, 4, 3, 4), none⟩)] ∧
    (FaceTracker.update (FaceTracker.init 30) [ptDet 3 4]).disappeared = [(0, 0)] := by
have h := C9_cold_start (FaceTracker.init 30) [ptDet 3 4] (by decide) rfl (by decide)
exact ⟨h.1.trans (by decide), h.2.trans (by decide)⟩

/-- C10. After `register`, `deregister` and every path of `update`, the
key list of `objects` equals the key list of `disappeared`; and every
track in the mapping `update` returns has a disappearance counter at most
`max_disappeared`. -/
theorem C10_invariants (s : TrackerState) (c : Nat × Nat) (b : Nat × Nat × Nat × Nat)
    (oid : Nat) (dets : List Detection) (hinv : TrackerInv s) :
    Dict.keys (FaceTracker.register s c b).objects =
      Dict.keys (FaceTracker.register s c b).disappeared ∧
    Dict.keys (FaceTracker.deregister s oid).objects =
      Dict.keys (FaceTracker.deregister s oid).disappeared ∧
    Dict.keys (FaceTracker.update s dets).objects =
      Dict.keys (FaceTracker.update s dets).disappeared ∧
    (∀ k ∈ Dict.keys (FaceTracker.update s dets).objects,
      cnt (FaceTracker.update s dets) k ≤ s.max_disappeared) := by
refine ⟨(FaceTracker.register_inv s c b hinv).1, (FaceTracker.deregister_inv s oid hinv).1,
  (FaceTracker.update_inv s dets hinv).1, ?_⟩
by_cases hd : dets = []
· subst hd
  obtain ⟨_, _, _, _, h5, h6⟩ := FaceTracker.update_empty_spec s hinv
  intro k hk
  have hle := ((h5 k).1 hk).2
  have hlk := (h6 k hk).1
  show (Dict.lookup (FaceTracker.update s []).disappeared k).getD 0 ≤ s.max_disappeared
  rw [hlk]
  exact hle
· by_cases ho : s.objects = []
  · obtain ⟨hobjs, hdis, _, _, _⟩ := FaceTracker.update_cold_spec s dets hd ho hinv
    intro k hk
    rw [hobjs, FaceTracker.keys_range_map] at hk
    obtain ⟨j, hj, he⟩ := List.mem_map.1 hk
    show (Dict.lookup (FaceTracker.update s dets).disappeared k).getD 0 ≤
      s.max_disappeared
    rw [hdis, ← he,
      FaceTracker.lookup_range_map s.next_object_id dets.length j (fun i => 0)
        (List.mem_range.1 hj)]
    exact Nat.zero_le _
  · obtain ⟨_, _, _, _, _, _, _, _, _, h10⟩ :=
      FaceTracker.update_match_spec s dets hd ho hinv
    exact h10

theorem C10_witness :
    Dict.keys (FaceTracker.update (FaceTracker.init 2) [ptDet 10 10]).objects =
      Dict.keys (FaceTracker.update (FaceTracker.init 2) [ptDet 10 10]).disappeared ∧
    (∀ k ∈ Dict.keys (FaceTracker.update (FaceTracker.init 2) [ptDet 10 10]).objects,
      cnt (FaceTracker.update (FaceTracker.init 2) [ptDet 10 10]) k ≤ 2) := by
have h := C10_invariants (FaceTracker.init 2) (0, 0) (0, 0, 0, 0) 0 [ptDet 10 10]
  (by decide)
exact ⟨h.2.2.1, h.2.2.2⟩
